import Mathlib

/-!
# IceNet network driver: shallow embedding and verified properties

Embedding of `drivers/net/ethernet/icenet` (`skbuff_cq.h`, `icenet.h`,
`icenet.c`, `main.c`).

Conventions of the embedding:

* C `int` / `uint64_t` values are natural numbers; where wrap-around matters
  the reduction modulo `2^32` or `2^64` is written out.
* Memory-mapped I/O is a trace of events appended to the device state; the
  value a register read returns is given by the environment (`Env.dev`) as a
  function of the trace so far and the register offset, so every theorem
  holds for an arbitrary device.
* A kernel oops (`BUG_ON`, or the dereference of a pointer to no live
  buffer) and an exhausted busy-wait are explicit outcomes (`Res.bug`,
  `Res.spin`).
* Kernel helpers that are not part of the driver are parameters (`Env`,
  `NetStack`).
-/

namespace IceNet

/-! ## Register map (`icenet.h`) -/

def ICENET_SEND_REQ : Nat := 0
def ICENET_RECV_REQ : Nat := 8
def ICENET_SEND_COMP : Nat := 16
def ICENET_COUNTS : Nat := 20
def ICENET_MACADDR : Nat := 24
def ICENET_INTMASK : Nat := 32
def ICENET_CKSUM_COUNTS : Nat := 36
def ICENET_CKSUM_RESP : Nat := 38
def ICENET_CKSUM_REQ : Nat := 40

def ICENET_INTMASK_TX : Nat := 1
def ICENET_INTMASK_RX : Nat := 2
def ICENET_INTMASK_BOTH : Nat := 3

/-- Value of `CHECKSUM_NONE` (`linux/skbuff.h`). -/
def CHECKSUM_NONE : Nat := 0
/-- Value of `CHECKSUM_PARTIAL` (`linux/skbuff.h`). -/
def CHECKSUM_PARTIAL : Nat := 3

/-! ## Packet buffers -/

/-- One page fragment `skb_frag_t`: `page_phys` stands for
`page_to_phys(frag->page.p)`. -/
structure SkbFrag where
  page_phys : Nat
  page_offset : Nat
  size : Nat
  deriving DecidableEq, Repr, Inhabited

/-- The fields of `struct sk_buff` (and its `skb_shared_info`) the driver
reads.  `head`, `data` and `end_ptr` are virtual addresses, `frags` is the
fragment array of which the first `nr_frags` slots are in use. -/
structure SkBuff where
  head : Nat
  data : Nat
  end_ptr : Nat
  len : Nat
  data_len : Nat
  csum_start : Nat
  csum_offset : Nat
  ip_summed : Nat
  nr_frags : Nat
  frags : List SkbFrag
  deriving DecidableEq, Repr, Inhabited

/-- `skb_headlen(skb)`: `skb->len - skb->data_len` (unsigned int). -/
def skb_headlen (skb : SkBuff) : Nat := skb.len - skb.data_len

/-- `&shinfo->frags[i]`. -/
def SkBuff.frag (skb : SkBuff) (i : Nat) : SkbFrag := skb.frags.getD i default

/-! ## Events and device state -/

/-- Observable actions of the driver, in program order. -/
inductive Event where
  | ioread16 (off val : Nat)
  | ioread32 (off val : Nat)
  | iowrite64 (off val : Nat)
  | store16 (addr val : Nat)
  | consume_skb (skb : SkBuff)
  | kfree_skb (skb : SkBuff)
  | netif_receive_skb (skb : SkBuff) (len : Nat)
  deriving DecidableEq, Repr

/-- `struct sk_buff_cq`: the shadow queue. -/
structure sk_buff_cq where
  entries : Nat → SkBuff
  head : Nat
  tail : Nat

/-- The counters of `ndev->stats` the driver updates. -/
structure NetStats where
  tx_packets : Nat
  tx_bytes : Nat
  tx_dropped : Nat
  rx_packets : Nat
  rx_bytes : Nat
  deriving DecidableEq, Repr

/-- `struct icenet_device` together with the parts of its `net_device` the
driver touches: the two shadow queues, the statistics, whether the transmit
queue is stopped, the interrupt mask word, and the trace of events so far. -/
structure Nic where
  send_cq : sk_buff_cq
  recv_cq : sk_buff_cq
  stats : NetStats
  queue_stopped : Bool
  intmask : Nat
  trace : List Event

/-- What the code takes from its build configuration and platform:
`CONFIG_ICENET_RING_SIZE`, `CONFIG_ICENET_TX_INTERRUPT_THRESHOLD`,
`NET_IP_ALIGN`, `virt_to_phys`, and the device itself (`dev t off` is the
value a read of register `off` returns after the events `t`). -/
structure Env where
  RING_SIZE : Nat
  TX_INTERRUPT_THRESHOLD : Nat
  NET_IP_ALIGN : Nat
  virt_to_phys : Nat → Nat
  dev : List Event → Nat → Nat

/-- Outcome of a driver routine: normal return with a value, a kernel oops
(a `BUG_ON` that fired, or the dereference of a pointer to no live buffer),
or a busy-wait that was still spinning when the fuel ran out. -/
inductive Res (α : Type) where
  | ok (val : α) (s : Nic)
  | bug (s : Nic)
  | spin (s : Nic)

/-- Whether the routine returned normally. -/
def Res.returned {α : Type} : Res α → Bool
  | .ok _ _ => true
  | .bug _ => false
  | .spin _ => false

/-- The device state an outcome ends in. -/
def Res.state {α : Type} : Res α → Nic
  | .ok _ s => s
  | .bug s => s
  | .spin s => s

/-- Sequencing of outcomes. -/
def Res.bind {α β : Type} (r : Res α) (f : α → Nic → Res β) : Res β :=
  match r with
  | .ok a s => f a s
  | .bug s => .bug s
  | .spin s => .spin s

/-- `ioread16(nic->iomem + off)`. -/
def ioread16 (E : Env) (s : Nic) (off : Nat) : Nat × Nic :=
  let v := E.dev s.trace off % 2 ^ 16
  (v, { s with trace := s.trace ++ [Event.ioread16 off v] })

/-- `ioread32(nic->iomem + off)`. -/
def ioread32 (E : Env) (s : Nic) (off : Nat) : Nat × Nic :=
  let v := E.dev s.trace off % 2 ^ 32
  (v, { s with trace := s.trace ++ [Event.ioread32 off v] })

/-- `iowrite64(val, nic->iomem + off)`. -/
def iowrite64 (s : Nic) (val off : Nat) : Nic :=
  { s with trace := s.trace ++ [Event.iowrite64 off (val % 2 ^ 64)] }

/-! ## The shadow queue (`skbuff_cq.h`) -/

/-- Two's complement `a - b` of 32-bit `int`s, each held as its bit pattern. -/
def int_sub (a b : Nat) : Nat := (a % 2 ^ 32 + (2 ^ 32 - b % 2 ^ 32)) % 2 ^ 32

/-- The macro `CIRC_CNT(head,tail,size)` of the kernel header
`include/linux/circ_buf.h` (included by `skbuff_cq.h`; the header is part of
the kernel tree, not of the driver directory):
`(((head) - (tail)) & ((size)-1))`. -/
def CIRC_CNT (head tail size : Nat) : Nat := int_sub head tail &&& (size - 1)

/-- The macro `CIRC_SPACE(head,tail,size)` of the kernel header
`include/linux/circ_buf.h` (same provenance as `CIRC_CNT`):
`CIRC_CNT((tail),((head)+1),(size))`; the header documents it as
"space available, 0..size-1", one slot being always left free. -/
def CIRC_SPACE (head tail size : Nat) : Nat := CIRC_CNT tail (head + 1) size

/-- `SK_BUFF_CQ_COUNT(cq)`. -/
def SK_BUFF_CQ_COUNT (R : Nat) (cq : sk_buff_cq) : Nat := CIRC_CNT cq.head cq.tail R

/-- `SK_BUFF_CQ_SPACE(cq)`. -/
def SK_BUFF_CQ_SPACE (R : Nat) (cq : sk_buff_cq) : Nat := CIRC_SPACE cq.head cq.tail R

def sk_buff_cq_init (cq : sk_buff_cq) : sk_buff_cq :=
  { cq with head := 0, tail := 0 }

def sk_buff_cq_push (R : Nat) (cq : sk_buff_cq) (skb : SkBuff) : sk_buff_cq :=
  { entries := fun i => if i = cq.head then skb else cq.entries i
    head := (cq.head + 1) &&& (R - 1)
    tail := cq.tail }

def sk_buff_cq_pop (R : Nat) (cq : sk_buff_cq) : SkBuff × sk_buff_cq :=
  (cq.entries cq.tail, { cq with tail := (cq.tail + 1) &&& (R - 1) })

def sk_buff_cq_tail_nsegments (cq : sk_buff_cq) : Nat :=
  (cq.entries cq.tail).nr_frags + 1

/-! ## Inline helpers of `icenet.h` -/

def send_req_avail (E : Env) (s : Nic) : Nat × Nic :=
  let r := ioread32 E s ICENET_COUNTS
  (r.1 &&& 0xff, r.2)

def recv_req_avail (E : Env) (s : Nic) : Nat × Nic :=
  let r := ioread32 E s ICENET_COUNTS
  ((r.1 >>> 8) &&& 0xff, r.2)

def send_comp_avail (E : Env) (s : Nic) : Nat × Nic :=
  let r := ioread32 E s ICENET_COUNTS
  ((r.1 >>> 16) &&& 0xff, r.2)

/-- `set_intmask`: atomic OR into the interrupt mask word. -/
def set_intmask (s : Nic) (mask : Nat) : Nic :=
  { s with intmask := s.intmask ||| mask }

/-- `clear_intmask`: atomic AND with the 32-bit complement of `mask`. -/
def clear_intmask (s : Nic) (mask : Nat) : Nic :=
  { s with intmask := s.intmask &&& ((2 ^ 32 - 1) ^^^ (mask % 2 ^ 32)) }

def send_space (E : Env) (s : Nic) : Nat × Nic :=
  let r := send_req_avail E s
  let avail := r.1
  let space := SK_BUFF_CQ_SPACE E.RING_SIZE r.2.send_cq
  (if avail < space then avail else space, r.2)

/-! ## `icenet.c` -/

/-- The 64-bit word `packet` that `post_send_frag` computes; `last` is the C
`int` flag and `part` stands for the C variable `partial = !last`. -/
def post_send_frag_packet (frag : SkbFrag) (last : Nat) : Nat :=
  let addr := (frag.page_phys + frag.page_offset) % 2 ^ 64
  let len := frag.size % 2 ^ 64
  let part := if last = 0 then 1 else 0
  ((part <<< 63) % 2 ^ 64) ||| ((len <<< 48) % 2 ^ 64) ||| (addr &&& 0xffffffffffff)

/-- `post_send_frag`: one write of the fragment's word to the transmit
descriptor register. -/
def post_send_frag (s : Nic) (frag : SkbFrag) (last : Nat) : Nic :=
  iowrite64 s (post_send_frag_packet frag last) ICENET_SEND_REQ

/-- The fragment loop of `icenet_post_send`:
`for (i = 0; i < shinfo->nr_frags; i++)`, entered at index `i` with `k`
iterations left. -/
def post_send_frags (skb : SkBuff) : Nat → Nat → Nic → Nic
  | 0, _, s => s
  | k + 1, i, s =>
    post_send_frags skb k (i + 1)
      (post_send_frag s (skb.frag i) (if i = skb.nr_frags - 1 then 1 else 0))

/-- The 64-bit word `icenet_post_send` writes for the head segment. -/
def post_send_head_packet (E : Env) (skb : SkBuff) : Nat :=
  let addr := E.virt_to_phys skb.data % 2 ^ 64
  let len := if skb.nr_frags > 0 then skb_headlen skb else skb.len
  let part := if skb.nr_frags > 0 then 1 else 0
  let addr := (addr + (2 ^ 64 - E.NET_IP_ALIGN % 2 ^ 64)) % 2 ^ 64
  let len := (len + E.NET_IP_ALIGN) % 2 ^ 64
  ((part <<< 63) % 2 ^ 64) ||| ((len <<< 48) % 2 ^ 64) ||| (addr &&& 0xffffffffffff)

def icenet_post_send (E : Env) (s : Nic) (skb : SkBuff) : Nic :=
  let s1 := iowrite64 s (post_send_head_packet E skb) ICENET_SEND_REQ
  let s2 := post_send_frags skb skb.nr_frags 0 s1
  { s2 with send_cq := sk_buff_cq_push E.RING_SIZE s2.send_cq skb }

/-- The inner loop of `icenet_complete_send`: `nsegs` reads of the
send-completion register, values discarded. -/
def read_send_comp (E : Env) : Nat → Nic → Nic
  | 0, s => s
  | k + 1, s => read_send_comp E k (ioread16 E s ICENET_SEND_COMP).2

/-- The `while (n > 0)` loop of `icenet_complete_send`.  Every iteration
that does not leave the loop lowers `n` by at least one, so `fuel = n` is
enough (`complete_send_loop_spec`). -/
def complete_send_loop (E : Env) : Nat → Nat → Nic → Res Unit
  | fuel, n, s =>
    if n = 0 then Res.ok () s
    else
      match fuel with
      | 0 => Res.spin s
      | fuel + 1 =>
        if SK_BUFF_CQ_COUNT E.RING_SIZE s.send_cq = 0 then Res.bug s
        else
          let nsegs := sk_buff_cq_tail_nsegments s.send_cq
          if nsegs > n then Res.ok () s
          else
            let s1 := read_send_comp E nsegs s
            let p := sk_buff_cq_pop E.RING_SIZE s1.send_cq
            let s2 := { s1 with send_cq := p.2, trace := s1.trace ++ [Event.consume_skb p.1] }
            complete_send_loop E fuel (n - nsegs) s2

def icenet_complete_send (E : Env) (s : Nic) : Res Unit :=
  let r := send_comp_avail E s
  complete_send_loop E r.1 r.1 r.2

/-- First busy-wait of `icenet_checksum_offload`:
`do counts = ioread16(CKSUM_COUNTS); while ((counts & 0xff) < need)`. -/
def cksum_wait_space (E : Env) (need : Nat) : Nat → Nic → Res Unit
  | 0, s => Res.spin s
  | fuel + 1, s =>
    let r := ioread16 E s ICENET_CKSUM_COUNTS
    if (r.1 &&& 0xff) < need then cksum_wait_space E need fuel r.2 else Res.ok () r.2

/-- Second busy-wait of `icenet_checksum_offload`:
`do counts = ioread16(CKSUM_COUNTS); while (((counts >> 8) & 0xff) == 0)`. -/
def cksum_wait_resp (E : Env) : Nat → Nic → Res Unit
  | 0, s => Res.spin s
  | fuel + 1, s =>
    let r := ioread16 E s ICENET_CKSUM_COUNTS
    if (r.1 >>> 8) &&& 0xff = 0 then cksum_wait_resp E fuel r.2 else Res.ok () r.2

/-- The request word of fragment `i` in `icenet_checksum_offload`, with the
physical address it carries (`part` stands for the C variable `partial`). -/
def cksum_frag_request (skb : SkBuff) (i : Nat) : Nat × Nat :=
  let part := if i < skb.nr_frags - 1 then 1 else 0
  let len := (skb.frag i).size % 2 ^ 64
  let paddr := ((skb.frag i).page_phys + (skb.frag i).page_offset) % 2 ^ 64
  (((part <<< 63) % 2 ^ 64) ||| ((len <<< 48) % 2 ^ 64) ||| paddr, paddr)

/-- The fragment loop of `icenet_checksum_offload`, entered at index `i`
with `k` iterations left; `BUG_ON(paddr >= (1L << 48))` precedes each write. -/
def cksum_frags (skb : SkBuff) : Nat → Nat → Nic → Res Unit
  | 0, _, s => Res.ok () s
  | k + 1, i, s =>
    let q := cksum_frag_request skb i
    if q.2 ≥ 2 ^ 48 then Res.bug s
    else cksum_frags skb k (i + 1) (iowrite64 s q.1 ICENET_CKSUM_REQ)

/-- The request word of the head span in `icenet_checksum_offload`, with the
physical address it carries. -/
def cksum_head_request (E : Env) (skb : SkBuff) : Nat × Nat :=
  let start := skb.head + skb.csum_start
  let endp := if skb.nr_frags > 0 then skb.data + skb_headlen skb else skb.end_ptr
  let part := if skb.nr_frags > 0 then 1 else 0
  let len := (endp % 2 ^ 64 + (2 ^ 64 - start % 2 ^ 64)) % 2 ^ 64
  let paddr := E.virt_to_phys start % 2 ^ 64
  (((part <<< 63) % 2 ^ 64) ||| ((len <<< 48) % 2 ^ 64) ||| paddr, paddr)

/-- `icenet_checksum_offload`; `fuel` bounds each of the two busy-waits.
The buffer comes back with `ip_summed = CHECKSUM_NONE`. -/
def icenet_checksum_offload (E : Env) (fuel : Nat) (s : Nic) (skb : SkBuff) : Res SkBuff :=
  let start := skb.head + skb.csum_start
  let q := cksum_head_request E skb
  if q.2 ≥ 2 ^ 48 then Res.bug s
  else
    (cksum_wait_space E (skb.nr_frags + 1) fuel s).bind fun _ s1 =>
    let s2 := iowrite64 s1 q.1 ICENET_CKSUM_REQ
    (cksum_frags skb skb.nr_frags 0 s2).bind fun _ s3 =>
    (cksum_wait_resp E fuel s3).bind fun _ s4 =>
    let r := ioread16 E s4 ICENET_CKSUM_RESP
    let offset := start + skb.csum_offset
    Res.ok { skb with ip_summed := CHECKSUM_NONE }
      { r.2 with trace := r.2.trace ++ [Event.store16 offset r.1] }

/-! ## `main.c` -/

def NETDEV_TX_OK : Nat := 0
def NETDEV_TX_BUSY : Nat := 16

/-- The reclamation attempt of `icenet_start_xmit`: entered with the first
`space` sample, it yields `tx_err`. -/
def start_xmit_reclaim (E : Env) (space nsegs : Nat) (s : Nic) : Res Bool :=
  if space < nsegs then
    (icenet_complete_send E s).bind fun _ s2 =>
      let r2 := send_space E s2
      Res.ok (decide (r2.1 < nsegs)) r2.2
  else Res.ok false s

/-- The error handler of `icenet_start_xmit` (`if (tx_err) ...`). -/
def start_xmit_drop (s : Nic) (skb : SkBuff) : Nic :=
  let s4 : Nic := { s with queue_stopped := true }
  let s5 := set_intmask s4 ICENET_INTMASK_TX
  { s5 with
    trace := s5.trace ++ [Event.kfree_skb skb]
    stats := { s5.stats with tx_dropped := s5.stats.tx_dropped + 1 } }

/-- The submission tail of `icenet_start_xmit`: optional checksum offload,
then `icenet_post_send` and the transmit counters. -/
def start_xmit_submit (E : Env) (fuel : Nat) (s : Nic) (skb : SkBuff) : Res Nat :=
  let c : Res SkBuff :=
    if skb.ip_summed = CHECKSUM_PARTIAL then icenet_checksum_offload E fuel s skb
    else Res.ok skb s
  c.bind fun skb1 s7 =>
    let s8 := icenet_post_send E s7 skb1
    Res.ok NETDEV_TX_OK
      { s8 with stats := { s8.stats with
                           tx_packets := s8.stats.tx_packets + 1
                           tx_bytes := s8.stats.tx_bytes + skb1.len } }

def icenet_start_xmit (E : Env) (fuel : Nat) (s : Nic) (skb : SkBuff) : Res Nat :=
  let nsegs := skb.nr_frags + 1
  let r := send_space E s
  let space := r.1
  let s1 := if space < E.TX_INTERRUPT_THRESHOLD then set_intmask r.2 ICENET_INTMASK_TX else r.2
  (start_xmit_reclaim E space nsegs s1).bind fun tx_err s3 =>
    if tx_err then Res.ok NETDEV_TX_BUSY (start_xmit_drop s3 skb)
    else start_xmit_submit E fuel s3 skb

/-! ## Reading a trace -/

/-- The words written to register `off`, in order. -/
def writes_at (off : Nat) (t : List Event) : List Nat :=
  t.filterMap fun e =>
    match e with
    | Event.iowrite64 o v => if o = off then some v else none
    | _ => none

/-- The values read from register `off`, in order. -/
def reads_at (off : Nat) (t : List Event) : List Nat :=
  t.filterMap fun e =>
    match e with
    | Event.ioread16 o v => if o = off then some v else none
    | Event.ioread32 o v => if o = off then some v else none
    | _ => none

/-- The buffers released by `dev_consume_skb_any`, in order. -/
def consumed (t : List Event) : List SkBuff :=
  t.filterMap fun e =>
    match e with
    | Event.consume_skb b => some b
    | _ => none

/-- The buffers released by `dev_kfree_skb_any`, in order. -/
def freed (t : List Event) : List SkBuff :=
  t.filterMap fun e =>
    match e with
    | Event.kfree_skb b => some b
    | _ => none

/-- The buffers handed to `netif_receive_skb`, in order. -/
def delivered (t : List Event) : List SkBuff :=
  t.filterMap fun e =>
    match e with
    | Event.netif_receive_skb b _ => some b
    | _ => none

/-- The 16-bit stores to memory, as (address, value), in order. -/
def stores (t : List Event) : List (Nat × Nat) :=
  t.filterMap fun e =>
    match e with
    | Event.store16 a v => some (a, v)
    | _ => none

/-! ## Call sequences on a shadow queue -/

/-- A ring size the C code can hold in an `int`: a power of two below `2^31`. -/
def ring_size_ok (R : Nat) : Prop := ∃ k, k < 31 ∧ R = 2 ^ k

/-- One call on a shadow queue. -/
inductive CqOp where
  | push (skb : SkBuff)
  | pop
  deriving DecidableEq, Repr

/-- One guarded call: a push is made only when `SK_BUFF_CQ_SPACE > 0`, a pop
only when `SK_BUFF_CQ_COUNT > 0` (otherwise `none`).  The second component
collects the buffers the pops returned. -/
def cq_call (R : Nat) (st : sk_buff_cq × List SkBuff) : CqOp → Option (sk_buff_cq × List SkBuff)
  | CqOp.push b =>
    if 0 < SK_BUFF_CQ_SPACE R st.1 then some (sk_buff_cq_push R st.1 b, st.2) else none
  | CqOp.pop =>
    if 0 < SK_BUFF_CQ_COUNT R st.1 then
      some ((sk_buff_cq_pop R st.1).2, st.2 ++ [(sk_buff_cq_pop R st.1).1])
    else none

/-- A sequence of guarded calls. -/
def cq_run (R : Nat) : List CqOp → sk_buff_cq × List SkBuff → Option (sk_buff_cq × List SkBuff)
  | [], st => some st
  | op :: ops, st =>
    match cq_call R st op with
    | some st1 => cq_run R ops st1
    | none => none

/-- The buffers given to the pushes of a call sequence, in order. -/
def pushed : List CqOp → List SkBuff
  | [] => []
  | CqOp.push b :: ops => b :: pushed ops
  | CqOp.pop :: ops => pushed ops

/-- The number of pops in a call sequence. -/
def pops : List CqOp → Nat
  | [] => 0
  | CqOp.push _ :: ops => pops ops
  | CqOp.pop :: ops => pops ops + 1

/-- The queue after `m` pops. -/
def pop_n (R : Nat) : Nat → sk_buff_cq → sk_buff_cq
  | 0, cq => cq
  | m + 1, cq => pop_n R m (sk_buff_cq_pop R cq).2

/-- The buffers `m` successive pops return, oldest first. -/
def tail_entries (R : Nat) : Nat → sk_buff_cq → List SkBuff
  | 0, _ => []
  | m + 1, cq => (sk_buff_cq_pop R cq).1 :: tail_entries R m (sk_buff_cq_pop R cq).2

/-- Total segment count (`nr_frags + 1` each) of a list of buffers. -/
def total_segments : List SkBuff → Nat
  | [] => 0
  | b :: bs => (b.nr_frags + 1) + total_segments bs

/-- The representation invariant of a shadow queue holding the buffers
`live`, oldest first: both indices are in range, fewer than `R` buffers are
live, `head` is `live.length` slots past `tail`, and slot `tail + i` holds
the `i`-th live buffer. -/
def cq_inv (R : Nat) (cq : sk_buff_cq) (live : List SkBuff) : Prop :=
  cq.head < R ∧ cq.tail < R ∧ live.length < R ∧
  cq.head = (cq.tail + live.length) % R ∧
  ∀ i, i < live.length → live[i]? = some (cq.entries ((cq.tail + i) % R))

/-! ## Wire format of a descriptor -/

/-- Bit 63 of a descriptor word: the continuation flag. -/
def desc_cont (w : Nat) : Nat := w / 2 ^ 63 % 2

/-- Bits 62..48 of a descriptor word: the length field. -/
def desc_len (w : Nat) : Nat := w / 2 ^ 48 % 2 ^ 15

/-- Bits 47..0 of a descriptor word: the address field. -/
def desc_addr (w : Nat) : Nat := w % 2 ^ 48

/-- Frame of the transmit-side reclamation and sampling steps: from `s` to
`s1` nothing is written to a register, stored to memory, freed or delivered,
no counter or queue flag changes, the receive queue is untouched and the send
queue keeps its `head` and its slots (only `tail` may move). -/
def tx_frame (s s1 : Nic) : Prop :=
  s1.stats = s.stats ∧ s1.queue_stopped = s.queue_stopped ∧
  s1.recv_cq = s.recv_cq ∧
  s1.send_cq.head = s.send_cq.head ∧ s1.send_cq.entries = s.send_cq.entries ∧
  (∀ off, writes_at off s1.trace = writes_at off s.trace) ∧
  freed s1.trace = freed s.trace ∧ delivered s1.trace = delivered s.trace ∧
  stores s1.trace = stores s.trace

/-! ## Sample values -/

/-- A device state as `icenet_probe` leaves it: both queues initialised,
counters zero, transmit queue running, empty trace. -/
def nic_idle : Nic :=
  { send_cq := sk_buff_cq_init { entries := fun _ => default, head := 0, tail := 0 }
    recv_cq := sk_buff_cq_init { entries := fun _ => default, head := 0, tail := 0 }
    stats := { tx_packets := 0, tx_bytes := 0, tx_dropped := 0, rx_packets := 0, rx_bytes := 0 }
    queue_stopped := false
    intmask := 0
    trace := [] }

/-- A 300-byte buffer with a 100-byte head and two 100-byte fragments. -/
def skb_two_frags : SkBuff :=
  { head := 0x2000, data := 0x2042, end_ptr := 0x2800, len := 300, data_len := 200
    csum_start := 0x64, csum_offset := 16, ip_summed := CHECKSUM_NONE, nr_frags := 2
    frags := [{ page_phys := 0x3000, page_offset := 0, size := 100 },
              { page_phys := 0x4000, page_offset := 8, size := 100 }] }

/-- A 60-byte linear buffer (no fragments). -/
def skb_linear : SkBuff :=
  { head := 0x5000, data := 0x5042, end_ptr := 0x5800, len := 60, data_len := 0
    csum_start := 0x64, csum_offset := 16, ip_summed := CHECKSUM_NONE, nr_frags := 0
    frags := [] }

/-- A platform with ring size 16, threshold 4, `NET_IP_ALIGN = 2`, identity
address translation, and a device whose counter register always reads
`counts` and whose other registers always read `other`. -/
def env_const (counts other : Nat) : Env :=
  { RING_SIZE := 16
    TX_INTERRUPT_THRESHOLD := 4
    NET_IP_ALIGN := 2
    virt_to_phys := fun v => v
    dev := fun _ off => if off = ICENET_COUNTS then counts else other }

/-- Frame of `icenet_checksum_offload`: from `s` to `s1` no counter, mask,
queue flag or shadow queue changes, nothing is written to the transmit
descriptor register, and nothing is freed, released or delivered. -/
def cksum_frame (s s1 : Nic) : Prop :=
  s1.stats = s.stats ∧ s1.queue_stopped = s.queue_stopped ∧ s1.intmask = s.intmask ∧
  s1.recv_cq = s.recv_cq ∧ s1.send_cq = s.send_cq ∧
  writes_at ICENET_SEND_REQ s1.trace = writes_at ICENET_SEND_REQ s.trace ∧
  freed s1.trace = freed s.trace ∧ delivered s1.trace = delivered s.trace ∧
  consumed s1.trace = consumed s.trace

/-- The state of `icenet_checksum_offload` when it enters its second
busy-wait: after the first wait and the request writes. -/
def cksum_mid_state (E : Env) (fuel : Nat) (s : Nic) (skb : SkBuff) : Nic :=
  (cksum_frags skb skb.nr_frags 0
    (iowrite64 (cksum_wait_space E (skb.nr_frags + 1) fuel s).state
      (cksum_head_request E skb).1 ICENET_CKSUM_REQ)).state

/-- The device state of `icenet_start_xmit` after the first `send_space`
sample and the threshold test. -/
def xmit_s1 (E : Env) (s : Nic) : Nic :=
  if (send_space E s).1 < E.TX_INTERRUPT_THRESHOLD then
    set_intmask (send_space E s).2 ICENET_INTMASK_TX
  else (send_space E s).2

/-- The first sample of `space` in `icenet_start_xmit`. -/
def xmit_space1 (E : Env) (s : Nic) : Nat := (send_space E s).1

/-- The second sample of `space` in `icenet_start_xmit`, taken after the
reclamation attempt. -/
def xmit_space2 (E : Env) (s : Nic) : Nat :=
  (send_space E (icenet_complete_send E (xmit_s1 E s)).state).1

/-- The device state of `icenet_start_xmit` after the reclamation attempt and
the second sample. -/
def xmit_s2 (E : Env) (s : Nic) : Nic :=
  (send_space E (icenet_complete_send E (xmit_s1 E s)).state).2

/-- The checksum stage of `icenet_start_xmit`: `icenet_checksum_offload` when
the buffer asks for it (`CHECKSUM_PARTIAL`), nothing otherwise. -/
def xmit_cksum_stage (E : Env) (fuel : Nat) (s : Nic) (skb : SkBuff) : Res SkBuff :=
  if skb.ip_summed = CHECKSUM_PARTIAL then icenet_checksum_offload E fuel s skb
  else Res.ok skb s

/-! ## Arithmetic of the ring indices -/

theorem mod_lt_two (a R : Nat) (h : a < 2 * R) :
    a % R = if a < R then a else a - R := by
  split_ifs with h1
  · exact Nat.mod_eq_of_lt h1
  · rw [Nat.mod_eq_sub_mod (by omega), Nat.mod_eq_of_lt (by omega)]

theorem ring_size_pos {R : Nat} (hR : ring_size_ok R) : 0 < R ∧ R < 2 ^ 32 ∧ R ∣ 2 ^ 32 := by
  obtain ⟨k, hk, rfl⟩ := hR
  refine ⟨Nat.pos_pow_of_pos _ (by decide), ?_, ?_⟩
  · calc 2 ^ k < 2 ^ 31 := Nat.pow_lt_pow_right (by decide) hk
      _ < 2 ^ 32 := by decide
  · exact pow_dvd_pow 2 (by omega)

theorem mask_eq_mod {R : Nat} (hR : ring_size_ok R) (x : Nat) : x &&& (R - 1) = x % R := by
  obtain ⟨k, _, rfl⟩ := hR
  exact Nat.and_pow_two_sub_one_eq_mod x k

theorem CIRC_CNT_eq {R : Nat} (hR : ring_size_ok R) (a b : Nat) (ha : a < R) (hb : b ≤ R) :
    CIRC_CNT a b R = (a + R - b) % R := by
  obtain ⟨hpos, hlt, m, hm⟩ := ring_size_pos hR
  unfold CIRC_CNT int_sub
  rw [mask_eq_mod hR, Nat.mod_eq_of_lt (by omega : a < 2 ^ 32),
    Nat.mod_eq_of_lt (by omega : b < 2 ^ 32), Nat.mod_mod_of_dvd _ ⟨m, hm⟩]
  have hm1 : 1 ≤ m := by
    rcases m with _ | m
    · simp at hm
    · omega
  have : a + (2 ^ 32 - b) = (a + R - b) + R * (m - 1) := by
    have : R * m = R + R * (m - 1) := by
      conv_lhs => rw [show m = 1 + (m - 1) by omega, Nat.mul_add, Nat.mul_one]
    omega
  rw [this, Nat.add_mul_mod_self_left]

theorem count_space_eq {R : Nat} (hR : ring_size_ok R) (cq : sk_buff_cq)
    (hh : cq.head < R) (ht : cq.tail < R) :
    SK_BUFF_CQ_COUNT R cq = (cq.head + R - cq.tail) % R ∧
    SK_BUFF_CQ_SPACE R cq = (cq.tail + R - (cq.head + 1)) % R := by
  unfold SK_BUFF_CQ_COUNT SK_BUFF_CQ_SPACE CIRC_SPACE
  exact ⟨CIRC_CNT_eq hR _ _ hh (by omega), CIRC_CNT_eq hR _ _ ht (by omega)⟩

theorem count_add_space {R : Nat} (hR : ring_size_ok R) (cq : sk_buff_cq)
    (hh : cq.head < R) (ht : cq.tail < R) :
    SK_BUFF_CQ_COUNT R cq + SK_BUFF_CQ_SPACE R cq + 1 = R := by
  obtain ⟨h1, h2⟩ := count_space_eq hR cq hh ht
  rw [h1, h2, mod_lt_two _ R (by omega), mod_lt_two _ R (by omega)]
  split_ifs <;> omega

/-! ## C8: space against count -/

/-- C8 (as amended): for a shadow queue with `head` and `tail` in `[0, R)`,
`R` a power of two, `SK_BUFF_CQ_SPACE` equals `R - 1 - SK_BUFF_CQ_COUNT`
(one slot always stays free), the count is at most `R - 1`, and a freshly
initialised queue reports space `R - 1`. -/
theorem sk_buff_cq_space_eq (R : Nat) (cq : sk_buff_cq) (hR : ring_size_ok R)
    (hh : cq.head < R) (ht : cq.tail < R) :
    SK_BUFF_CQ_SPACE R cq = R - 1 - SK_BUFF_CQ_COUNT R cq ∧
    SK_BUFF_CQ_COUNT R cq ≤ R - 1 ∧
    SK_BUFF_CQ_SPACE R (sk_buff_cq_init cq) = R - 1 := by
  have h := count_add_space hR cq hh ht
  have hpos := (ring_size_pos hR).1
  have h0 := count_add_space hR (sk_buff_cq_init cq) hpos hpos
  have hc0 : SK_BUFF_CQ_COUNT R (sk_buff_cq_init cq) = 0 := by
    rw [(count_space_eq hR (sk_buff_cq_init cq) hpos hpos).1]
    simp [sk_buff_cq_init]
  refine ⟨by omega, by omega, by omega⟩

/-- C8, witness: ring size 16, `head = 5`, `tail = 2`. -/
theorem sk_buff_cq_space_eq_witness :
    SK_BUFF_CQ_SPACE 16 { entries := fun _ => default, head := 5, tail := 2 } = 12 ∧
    SK_BUFF_CQ_COUNT 16 { entries := fun _ => default, head := 5, tail := 2 } = 3 :=
  have h := sk_buff_cq_space_eq 16 { entries := fun _ => default, head := 5, tail := 2 }
    ⟨4, by decide, by decide⟩ (by decide) (by decide)
  have hc : SK_BUFF_CQ_COUNT 16 { entries := fun _ => default, head := 5, tail := 2 } = 3 := by
    decide
  ⟨by rw [h.1, hc], hc⟩

/-- C8, counterexample to the claim as stated: with ring size 16 the freshly
initialised queue has count 0 and reports space 15, not 16. -/
theorem sk_buff_cq_space_fresh_counterexample :
    SK_BUFF_CQ_COUNT 16 (sk_buff_cq_init { entries := fun _ => default, head := 0, tail := 0 }) = 0 ∧
    SK_BUFF_CQ_SPACE 16 (sk_buff_cq_init { entries := fun _ => default, head := 0, tail := 0 }) = 15 ∧
    SK_BUFF_CQ_SPACE 16 (sk_buff_cq_init { entries := fun _ => default, head := 0, tail := 0 }) ≠
      16 - SK_BUFF_CQ_COUNT 16 (sk_buff_cq_init { entries := fun _ => default, head := 0, tail := 0 }) := by
  decide

/-! ## C2: the shadow queue is a bounded FIFO -/

theorem cq_inv_count {R : Nat} (hR : ring_size_ok R) {cq : sk_buff_cq} {live : List SkBuff}
    (h : cq_inv R cq live) : SK_BUFF_CQ_COUNT R cq = live.length := by
  obtain ⟨hh, ht, hl, hhead, _⟩ := h
  rw [mod_lt_two _ R (by omega)] at hhead
  rw [(count_space_eq hR cq hh ht).1, mod_lt_two (cq.head + R - cq.tail) R (by omega)]
  split_ifs at hhead ⊢ <;> omega

theorem cq_inv_push {R : Nat} (hR : ring_size_ok R) {cq : sk_buff_cq} {live : List SkBuff}
    (h : cq_inv R cq live) (hs : 0 < SK_BUFF_CQ_SPACE R cq) (b : SkBuff) :
    cq_inv R (sk_buff_cq_push R cq b) (live ++ [b]) := by
  have hc := cq_inv_count hR h
  obtain ⟨hh, ht, hl, hhead, hent⟩ := h
  have hsum := count_add_space hR cq hh ht
  have hpos := (ring_size_pos hR).1
  have hn : live.length + 1 < R := by omega
  have hhead2 := hhead
  rw [mod_lt_two _ R (by omega)] at hhead2
  refine ⟨?_, ht, by simpa using hn, ?_, ?_⟩
  · simp only [sk_buff_cq_push, mask_eq_mod hR]
    exact Nat.mod_lt _ hpos
  · simp only [sk_buff_cq_push, mask_eq_mod hR, List.length_append, List.length_singleton]
    rw [mod_lt_two (cq.head + 1) R (by omega), mod_lt_two (cq.tail + (live.length + 1)) R (by omega)]
    split_ifs at hhead2 ⊢ <;> omega
  · intro i hi
    simp only [List.length_append, List.length_singleton] at hi
    simp only [sk_buff_cq_push]
    rcases Nat.lt_or_ge i live.length with hlt | hge
    · rw [List.getElem?_append_left hlt, hent i hlt]
      have hne : (cq.tail + i) % R ≠ cq.head := by
        rw [mod_lt_two _ R (by omega)]
        split_ifs at hhead2 ⊢ <;> omega
      simp [hne]
    · have hi2 : i = live.length := by omega
      subst hi2
      simp [hhead]

theorem cq_inv_pop {R : Nat} (hR : ring_size_ok R) {cq : sk_buff_cq} {live : List SkBuff}
    (h : cq_inv R cq live) (hs : 0 < SK_BUFF_CQ_COUNT R cq) :
    ∃ rest, live = (sk_buff_cq_pop R cq).1 :: rest ∧ cq_inv R (sk_buff_cq_pop R cq).2 rest := by
  have hc := cq_inv_count hR h
  obtain ⟨hh, ht, hl, hhead, hent⟩ := h
  have hpos := (ring_size_pos hR).1
  rcases live with _ | ⟨x, rest⟩
  · simp at hc; omega
  refine ⟨rest, ?_, ?_⟩
  · have h0 := hent 0 (by simp)
    simp only [List.getElem?_cons_zero, Nat.add_zero, Nat.mod_eq_of_lt ht, Option.some.injEq] at h0
    simp [sk_buff_cq_pop, h0]
  · simp only [List.length_cons] at hl hhead hent
    refine ⟨hh, ?_, by omega, ?_, ?_⟩
    · simp only [sk_buff_cq_pop, mask_eq_mod hR]
      exact Nat.mod_lt _ hpos
    · simp only [sk_buff_cq_pop, mask_eq_mod hR]
      rw [hhead, Nat.mod_add_mod]
      congr 1
      omega
    · intro i hi
      have := hent (i + 1) (by omega)
      simp only [List.getElem?_cons_succ] at this
      simp only [sk_buff_cq_pop, mask_eq_mod hR]
      rw [this, Nat.mod_add_mod]
      congr 3
      omega

theorem cq_run_inv {R : Nat} (hR : ring_size_ok R) (ops : List CqOp) :
    ∀ (cq : sk_buff_cq) (out live : List SkBuff) (cq1 : sk_buff_cq) (out1 : List SkBuff),
      cq_inv R cq live → cq_run R ops (cq, out) = some (cq1, out1) →
      ∃ live1, cq_inv R cq1 live1 ∧ out ++ live ++ pushed ops = out1 ++ live1 ∧
        out1.length = out.length + pops ops := by
  induction ops with
  | nil =>
    intro cq out live cq1 out1 hinv hrun
    simp only [cq_run, Option.some.injEq, Prod.mk.injEq] at hrun
    obtain ⟨rfl, rfl⟩ := hrun
    exact ⟨live, hinv, by simp [pushed], by simp [pops]⟩
  | cons op ops ih =>
    intro cq out live cq1 out1 hinv hrun
    cases op with
    | push b =>
      simp only [cq_run, cq_call] at hrun
      split_ifs at hrun with hs
      obtain ⟨live1, h1, h2, h3⟩ := ih _ _ _ _ _ (cq_inv_push hR hinv hs b) hrun
      exact ⟨live1, h1, by simpa [pushed] using h2, by simpa [pops] using h3⟩
    | pop =>
      simp only [cq_run, cq_call] at hrun
      split_ifs at hrun with hs
      obtain ⟨rest, hl, hinv1⟩ := cq_inv_pop hR hinv hs
      obtain ⟨live1, h1, h2, h3⟩ := ih _ _ _ _ _ hinv1 hrun
      refine ⟨live1, h1, ?_, ?_⟩
      · rw [← h2, hl]; simp [pushed]
      · rw [h3]; simp [pops]; omega

theorem cq_run_append (R : Nat) (ops1 ops2 : List CqOp) :
    ∀ st, cq_run R (ops1 ++ ops2) st =
      match cq_run R ops1 st with
      | some st1 => cq_run R ops2 st1
      | none => none := by
  induction ops1 with
  | nil => intro st; simp [cq_run]
  | cons op ops ih =>
    intro st
    simp only [List.cons_append, cq_run]
    cases cq_call R st op with
    | none => rfl
    | some st1 => exact ih st1

/-- C2: for a power-of-two ring size `R`, take any sequence of guarded
`sk_buff_cq_push` / `sk_buff_cq_pop` calls starting from `sk_buff_cq_init`
(each push made with `SK_BUFF_CQ_SPACE > 0`, each pop with
`SK_BUFF_CQ_COUNT > 0`).  After every call of the sequence (after every
prefix `ops1`) `SK_BUFF_CQ_COUNT` is at most `R`, and the buffers returned by
the pops so far are exactly the buffers given to the first pushes, in push
order: the `k`-th pop returns the buffer of the `k`-th push. -/
theorem sk_buff_cq_fifo (R : Nat) (cq0 : sk_buff_cq) (ops1 ops2 : List CqOp)
    (cq : sk_buff_cq) (out : List SkBuff) (hR : ring_size_ok R)
    (hrun : cq_run R (ops1 ++ ops2) (sk_buff_cq_init cq0, []) = some (cq, out)) :
    ∃ cq1 out1, cq_run R ops1 (sk_buff_cq_init cq0, []) = some (cq1, out1) ∧
      SK_BUFF_CQ_COUNT R cq1 ≤ R ∧
      out1.length = pops ops1 ∧
      pops ops1 ≤ (pushed ops1).length ∧
      out1 = (pushed ops1).take (pops ops1) := by
  rw [cq_run_append] at hrun
  cases h1 : cq_run R ops1 (sk_buff_cq_init cq0, []) with
  | none => rw [h1] at hrun; cases hrun
  | some st1 =>
    obtain ⟨cq1, out1⟩ := st1
    have hpos := (ring_size_pos hR).1
    have hinit : cq_inv R (sk_buff_cq_init cq0) [] := by
      refine ⟨hpos, hpos, hpos, ?_, ?_⟩
      · simp [sk_buff_cq_init, Nat.mod_eq_of_lt hpos]
      · intro i hi; simp at hi
    obtain ⟨live1, hinv, happ, hlen⟩ := cq_run_inv hR ops1 _ _ _ _ _ hinit h1
    have hcount := cq_inv_count hR hinv
    simp only [List.nil_append, List.length_nil, Nat.zero_add] at happ hlen
    refine ⟨cq1, out1, rfl, ?_, hlen, ?_, ?_⟩
    · rw [hcount]; exact Nat.le_of_lt hinv.2.2.1
    · rw [happ, ← hlen]; simp
    · rw [happ, ← hlen]; simp

/-- C2, witness: ring size 4, calls push a, push b, pop, push c, pop, pop;
the three pops return a, b, c. -/
theorem sk_buff_cq_fifo_witness :
    ∃ cq1 out1,
      cq_run 4
        [CqOp.push { (default : SkBuff) with len := 1 }, CqOp.push { (default : SkBuff) with len := 2 },
         CqOp.pop, CqOp.push { (default : SkBuff) with len := 3 }, CqOp.pop, CqOp.pop]
        (sk_buff_cq_init { entries := fun _ => default, head := 3, tail := 1 }, []) = some (cq1, out1) ∧
      SK_BUFF_CQ_COUNT 4 cq1 ≤ 4 ∧
      out1 = [{ (default : SkBuff) with len := 1 }, { (default : SkBuff) with len := 2 },
              { (default : SkBuff) with len := 3 }] := by
  obtain ⟨⟨cq, out⟩, h⟩ := Option.isSome_iff_exists.1
    (show (cq_run 4
        [CqOp.push { (default : SkBuff) with len := 1 }, CqOp.push { (default : SkBuff) with len := 2 },
         CqOp.pop, CqOp.push { (default : SkBuff) with len := 3 }, CqOp.pop, CqOp.pop]
        (sk_buff_cq_init { entries := fun _ => default, head := 3, tail := 1 }, [])).isSome = true by
      decide)
  obtain ⟨cq1, out1, h1, h2, _, _, h5⟩ := sk_buff_cq_fifo 4 _ _ [] cq out ⟨2, by decide, by decide⟩
    (by rw [List.append_nil]; exact h)
  exact ⟨cq1, out1, h1, h2, by rw [h5]; rfl⟩

/-! ## C7: the descriptor word of `post_send_frag` -/

theorem desc_word_eq (p len a : Nat) (hp : p ≤ 1) (hl : len < 2 ^ 15) :
    ((p <<< 63) % 2 ^ 64) ||| ((len <<< 48) % 2 ^ 64) ||| (a &&& 0xffffffffffff) =
      p * 2 ^ 63 + len * 2 ^ 48 + a % 2 ^ 48 := by
  have hmask : a &&& 0xffffffffffff = a % 2 ^ 48 := Nat.and_pow_two_sub_one_eq_mod a 48
  have ha : a % 2 ^ 48 < 2 ^ 48 := Nat.mod_lt _ (by decide)
  rw [hmask, Nat.shiftLeft_eq, Nat.shiftLeft_eq, Nat.mod_eq_of_lt (by omega : p * 2 ^ 63 < 2 ^ 64),
    Nat.mod_eq_of_lt (by omega : len * 2 ^ 48 < 2 ^ 64)]
  have h1 : p * 2 ^ 63 ||| len * 2 ^ 48 = p * 2 ^ 63 + len * 2 ^ 48 := by
    have := Nat.mul_add_lt_is_or (by omega : len * 2 ^ 48 < 2 ^ 63) p
    rw [Nat.mul_comm] at this
    exact this.symm
  have h2 : (p * 2 ^ 63 + len * 2 ^ 48) ||| a % 2 ^ 48 = p * 2 ^ 63 + len * 2 ^ 48 + a % 2 ^ 48 := by
    have := Nat.mul_add_lt_is_or ha (p * 2 ^ 15 + len)
    have e : 2 ^ 48 * (p * 2 ^ 15 + len) = p * 2 ^ 63 + len * 2 ^ 48 := by omega
    rw [e] at this
    exact this.symm
  rw [h1, h2]

/-- C7: for a fragment whose physical address `page_to_phys + page_offset` is
below `2^48` and whose size is below `2^15`, and for every value of the C
flag `last`, `post_send_frag` appends exactly one write to the transmit
descriptor register, of the word `(!last) * 2^63 + len * 2^48 + addr`; in that
word bit 63 is `!last`, bits 62..48 are `len` and bits 47..0 are `addr`. -/
theorem post_send_frag_word (s : Nic) (frag : SkbFrag) (last : Nat)
    (haddr : frag.page_phys + frag.page_offset < 2 ^ 48) (hlen : frag.size < 2 ^ 15) :
    ∃ w, (post_send_frag s frag last).trace = s.trace ++ [Event.iowrite64 ICENET_SEND_REQ w] ∧
      w = (if last = 0 then 1 else 0) * 2 ^ 63 + frag.size * 2 ^ 48
            + (frag.page_phys + frag.page_offset) ∧
      desc_cont w = (if last = 0 then 1 else 0) ∧
      desc_len w = frag.size ∧
      desc_addr w = frag.page_phys + frag.page_offset := by
  have hp : (if last = 0 then 1 else 0) ≤ 1 := by split_ifs <;> omega
  have hw := desc_word_eq (if last = 0 then 1 else 0) frag.size
    (frag.page_phys + frag.page_offset) hp hlen
  rw [Nat.mod_eq_of_lt haddr] at hw
  have e1 : frag.size % 2 ^ 64 = frag.size := Nat.mod_eq_of_lt (by omega)
  have e2 : (frag.page_phys + frag.page_offset) % 2 ^ 64 = frag.page_phys + frag.page_offset :=
    Nat.mod_eq_of_lt (by omega)
  refine ⟨_, ?_, rfl, ?_, ?_, ?_⟩
  · simp only [post_send_frag, post_send_frag_packet, iowrite64]
    rw [e1, e2, hw, Nat.mod_eq_of_lt (by split_ifs <;> omega)]
  · unfold desc_cont; split_ifs <;> omega
  · unfold desc_len; split_ifs <;> omega
  · unfold desc_addr; split_ifs <;> omega

/-- C7, witness: address `0x1000 + 0x40`, length 100, `last = 1`. -/
theorem post_send_frag_word_witness :
    ∃ w, (post_send_frag
        { send_cq := { entries := fun _ => default, head := 0, tail := 0 },
          recv_cq := { entries := fun _ => default, head := 0, tail := 0 },
          stats := { tx_packets := 0, tx_bytes := 0, tx_dropped := 0, rx_packets := 0, rx_bytes := 0 },
          queue_stopped := false, intmask := 0, trace := [] }
        { page_phys := 0x1000, page_offset := 0x40, size := 100 } 1).trace
        = [] ++ [Event.iowrite64 ICENET_SEND_REQ w] ∧
      w = 100 * 2 ^ 48 + 0x1040 ∧ desc_cont w = 0 ∧ desc_len w = 100 ∧ desc_addr w = 0x1040 := by
  obtain ⟨w, h1, h2, h3, h4, h5⟩ := post_send_frag_word
    { send_cq := { entries := fun _ => default, head := 0, tail := 0 },
      recv_cq := { entries := fun _ => default, head := 0, tail := 0 },
      stats := { tx_packets := 0, tx_bytes := 0, tx_dropped := 0, rx_packets := 0, rx_bytes := 0 },
      queue_stopped := false, intmask := 0, trace := [] }
    { page_phys := 0x1000, page_offset := 0x40, size := 100 } 1 (by decide) (by decide)
  exact ⟨w, h1, by simpa using h2, by simpa using h3, by simpa using h4, by simpa using h5⟩

/-! ## Traces -/

@[simp] theorem writes_at_append (off : Nat) (a b : List Event) :
    writes_at off (a ++ b) = writes_at off a ++ writes_at off b := by
  simp [writes_at, List.filterMap_append]

@[simp] theorem reads_at_append (off : Nat) (a b : List Event) :
    reads_at off (a ++ b) = reads_at off a ++ reads_at off b := by
  simp [reads_at, List.filterMap_append]

@[simp] theorem consumed_append (a b : List Event) :
    consumed (a ++ b) = consumed a ++ consumed b := by
  simp [consumed, List.filterMap_append]

@[simp] theorem freed_append (a b : List Event) : freed (a ++ b) = freed a ++ freed b := by
  simp [freed, List.filterMap_append]

@[simp] theorem delivered_append (a b : List Event) :
    delivered (a ++ b) = delivered a ++ delivered b := by
  simp [delivered, List.filterMap_append]

@[simp] theorem stores_append (a b : List Event) : stores (a ++ b) = stores a ++ stores b := by
  simp [stores, List.filterMap_append]

theorem tx_frame_refl (s : Nic) : tx_frame s s := by
  simp [tx_frame]

theorem tx_frame_trans {a b c : Nic} (h1 : tx_frame a b) (h2 : tx_frame b c) : tx_frame a c := by
  obtain ⟨a1, a2, a4, a5, a6, a7, a8, a9, a10⟩ := h1
  obtain ⟨b1, b2, b4, b5, b6, b7, b8, b9, b10⟩ := h2
  exact ⟨b1.trans a1, b2.trans a2, b4.trans a4, b5.trans a5, b6.trans a6,
    fun off => (b7 off).trans (a7 off), b8.trans a8, b9.trans a9, b10.trans a10⟩

theorem tx_frame_ioread16 (E : Env) (s : Nic) (off : Nat) : tx_frame s (ioread16 E s off).2 := by
  simp [tx_frame, ioread16, writes_at, freed, delivered, stores]

theorem tx_frame_ioread32 (E : Env) (s : Nic) (off : Nat) : tx_frame s (ioread32 E s off).2 := by
  simp [tx_frame, ioread32, writes_at, freed, delivered, stores]

theorem tx_frame_send_space (E : Env) (s : Nic) : tx_frame s (send_space E s).2 := by
  simpa [send_space, send_req_avail] using tx_frame_ioread32 E s ICENET_COUNTS

/-! ## C1: reclamation of completed transmit buffers -/

theorem read_send_comp_spec (E : Env) (k : Nat) :
    ∀ s : Nic, tx_frame s (read_send_comp E k s) ∧
      (read_send_comp E k s).send_cq = s.send_cq ∧
      consumed (read_send_comp E k s).trace = consumed s.trace ∧
      (reads_at ICENET_SEND_COMP (read_send_comp E k s).trace).length =
        (reads_at ICENET_SEND_COMP s.trace).length + k := by
  induction k with
  | zero => intro s; simp [read_send_comp, tx_frame_refl]
  | succ k ih =>
    intro s
    obtain ⟨h1, h2, h3, h4⟩ := ih (ioread16 E s ICENET_SEND_COMP).2
    refine ⟨tx_frame_trans (tx_frame_ioread16 E s _) h1, ?_, ?_, ?_⟩
    · rw [read_send_comp, h2]; rfl
    · rw [read_send_comp, h3]; simp [ioread16, consumed]
    · rw [read_send_comp, h4]; simp [ioread16, reads_at]; omega

theorem pop_n_frame (R : Nat) (m : Nat) :
    ∀ cq : sk_buff_cq, (pop_n R m cq).head = cq.head ∧ (pop_n R m cq).entries = cq.entries := by
  induction m with
  | zero => intro cq; simp [pop_n]
  | succ m ih =>
    intro cq
    obtain ⟨h1, h2⟩ := ih (sk_buff_cq_pop R cq).2
    exact ⟨by rw [pop_n, h1]; rfl, by rw [pop_n, h2]; rfl⟩

theorem tail_entries_succ (R : Nat) (m : Nat) :
    ∀ cq : sk_buff_cq, tail_entries R (m + 1) cq =
      tail_entries R m cq ++ [(sk_buff_cq_pop R (pop_n R m cq)).1] := by
  induction m with
  | zero => intro cq; rfl
  | succ m ih => intro cq; rw [tail_entries, ih]; rfl

theorem total_segments_append (a b : List SkBuff) :
    total_segments (a ++ b) = total_segments a + total_segments b := by
  induction a with
  | nil => simp [total_segments]
  | cons x xs ih => simp [total_segments, ih]; omega

theorem total_segments_tail_mono (R : Nat) (cq : sk_buff_cq) (j m : Nat) (h : j ≤ m) :
    total_segments (tail_entries R j cq) ≤ total_segments (tail_entries R m cq) := by
  induction m with
  | zero =>
    have : j = 0 := by omega
    subst this; exact Nat.le_refl _
  | succ m ih =>
    rcases Nat.lt_or_ge j (m + 1) with h1 | h1
    · have := ih (by omega)
      rw [tail_entries_succ, total_segments_append]; omega
    · have : j = m + 1 := by omega
      subst this; exact Nat.le_refl _

theorem complete_send_loop_spec (E : Env) (fuel : Nat) :
    ∀ (n : Nat) (s : Nic), n ≤ fuel →
    ∃ (m : Nat) (st : Nic),
      tx_frame s st ∧
      st.send_cq = pop_n E.RING_SIZE m s.send_cq ∧
      consumed st.trace = consumed s.trace ++ tail_entries E.RING_SIZE m s.send_cq ∧
      (reads_at ICENET_SEND_COMP st.trace).length =
        (reads_at ICENET_SEND_COMP s.trace).length
          + total_segments (tail_entries E.RING_SIZE m s.send_cq) ∧
      total_segments (tail_entries E.RING_SIZE m s.send_cq) ≤ n ∧
      ((complete_send_loop E fuel n s = Res.ok () st ∧
          (n = total_segments (tail_entries E.RING_SIZE m s.send_cq) ∨
           n - total_segments (tail_entries E.RING_SIZE m s.send_cq)
             < sk_buff_cq_tail_nsegments st.send_cq)) ∨
       (complete_send_loop E fuel n s = Res.bug st ∧
          total_segments (tail_entries E.RING_SIZE m s.send_cq) < n ∧
          SK_BUFF_CQ_COUNT E.RING_SIZE st.send_cq = 0)) := by
  induction fuel with
  | zero =>
    intro n s hn
    have hn0 : n = 0 := by omega
    subst hn0
    refine ⟨0, s, tx_frame_refl s, rfl, by simp [tail_entries], by simp [tail_entries, total_segments],
      by simp [tail_entries, total_segments], Or.inl ⟨?_, Or.inl ?_⟩⟩
    · simp [complete_send_loop]
    · simp [tail_entries, total_segments]
  | succ fuel ih =>
    intro n s hn
    by_cases hn0 : n = 0
    · subst hn0
      refine ⟨0, s, tx_frame_refl s, rfl, by simp [tail_entries],
        by simp [tail_entries, total_segments], by simp [tail_entries, total_segments],
        Or.inl ⟨?_, Or.inl ?_⟩⟩
      · simp [complete_send_loop]
      · simp [tail_entries, total_segments]
    · by_cases hc : SK_BUFF_CQ_COUNT E.RING_SIZE s.send_cq = 0
      · refine ⟨0, s, tx_frame_refl s, rfl, by simp [tail_entries],
          by simp [tail_entries, total_segments], by simp [tail_entries, total_segments],
          Or.inr ⟨?_, ?_, hc⟩⟩
        · simp [complete_send_loop, hn0, hc]
        · simp [tail_entries, total_segments]; omega
      · by_cases hseg : sk_buff_cq_tail_nsegments s.send_cq > n
        · refine ⟨0, s, tx_frame_refl s, rfl, by simp [tail_entries],
            by simp [tail_entries, total_segments], by simp [tail_entries, total_segments],
            Or.inl ⟨?_, Or.inr ?_⟩⟩
          · simp [complete_send_loop, hn0, hc, hseg]
          · simpa [tail_entries, total_segments] using hseg
        · obtain ⟨r1, r2, r3, r4⟩ :=
            read_send_comp_spec E (sk_buff_cq_tail_nsegments s.send_cq) s
          have hnseg : sk_buff_cq_tail_nsegments s.send_cq
              = (sk_buff_cq_pop E.RING_SIZE s.send_cq).1.nr_frags + 1 := rfl
          obtain ⟨m, st, f1, f2, f3, f4, f5, f6⟩ :=
            ih (n - sk_buff_cq_tail_nsegments s.send_cq)
              { read_send_comp E (sk_buff_cq_tail_nsegments s.send_cq) s with
                send_cq := (sk_buff_cq_pop E.RING_SIZE
                  (read_send_comp E (sk_buff_cq_tail_nsegments s.send_cq) s).send_cq).2
                trace := (read_send_comp E (sk_buff_cq_tail_nsegments s.send_cq) s).trace ++
                  [Event.consume_skb (sk_buff_cq_pop E.RING_SIZE
                    (read_send_comp E (sk_buff_cq_tail_nsegments s.send_cq) s).send_cq).1] }
              (by rw [hnseg]; omega)
          have hloop : complete_send_loop E (fuel + 1) n s =
              complete_send_loop E fuel (n - sk_buff_cq_tail_nsegments s.send_cq)
                { read_send_comp E (sk_buff_cq_tail_nsegments s.send_cq) s with
                  send_cq := (sk_buff_cq_pop E.RING_SIZE
                    (read_send_comp E (sk_buff_cq_tail_nsegments s.send_cq) s).send_cq).2
                  trace := (read_send_comp E (sk_buff_cq_tail_nsegments s.send_cq) s).trace ++
                    [Event.consume_skb (sk_buff_cq_pop E.RING_SIZE
                      (read_send_comp E (sk_buff_cq_tail_nsegments s.send_cq) s).send_cq).1] } := by
            rw [complete_send_loop]
            simp only [hn0, hc, hseg, if_false]
          simp only [r2] at f1 f2 f3 f4 f5 f6 hloop
          have hfr : tx_frame s st := by
            refine tx_frame_trans r1 (tx_frame_trans ?_ f1)
            simp [tx_frame, sk_buff_cq_pop, r2, writes_at, freed, delivered, stores]
          have htot : total_segments (tail_entries E.RING_SIZE (m + 1) s.send_cq)
              = sk_buff_cq_tail_nsegments s.send_cq
                + total_segments (tail_entries E.RING_SIZE m (sk_buff_cq_pop E.RING_SIZE s.send_cq).2) := by
            rw [tail_entries, total_segments, hnseg]
          refine ⟨m + 1, st, hfr, ?_, ?_, ?_, ?_, ?_⟩
          · rw [f2]; rfl
          · rw [f3, consumed_append, r3, tail_entries]; simp [consumed]
          · rw [f4, reads_at_append, List.length_append, r4, htot]; simp [reads_at]; omega
          · rw [htot]; omega
          · rw [hloop, htot]
            rcases f6 with ⟨g1, g2⟩ | ⟨g1, g2, g3⟩
            · refine Or.inl ⟨g1, ?_⟩
              rcases g2 with g2 | g2
              · left; omega
              · right; omega
            · exact Or.inr ⟨g1, by omega, g3⟩

/-- C1: for every device state and every completion count
`n = send_comp_avail`, `icenet_complete_send` ends (normally, or in the
`BUG_ON` of an empty queue) having popped some number `m` of entries such that
* the queue is the old one after `m` pops at the tail: `head` and the slots
  are unchanged, and the buffers released are the `m` oldest entries in FIFO
  order;
* the number of reads of the send-completion register equals the sum of the
  segment counts (`nr_frags + 1`) of the popped entries, which is at most `n`;
* each entry was popped only when the count remaining at that point was at
  least its segment count;
* on normal return either all `n` completions were used or the entry now at
  the tail has a segment count above what remains: it is left in place. -/
theorem icenet_complete_send_fifo (E : Env) (s : Nic) :
    ∃ (m : Nat) (st : Nic),
      (icenet_complete_send E s).state = st ∧
      st.send_cq = pop_n E.RING_SIZE m s.send_cq ∧
      st.send_cq.head = s.send_cq.head ∧ st.send_cq.entries = s.send_cq.entries ∧
      consumed st.trace = consumed s.trace ++ tail_entries E.RING_SIZE m s.send_cq ∧
      (reads_at ICENET_SEND_COMP st.trace).length =
        (reads_at ICENET_SEND_COMP s.trace).length
          + total_segments (tail_entries E.RING_SIZE m s.send_cq) ∧
      total_segments (tail_entries E.RING_SIZE m s.send_cq) ≤ (send_comp_avail E s).1 ∧
      (∀ j, j < m →
        total_segments (tail_entries E.RING_SIZE j s.send_cq)
          + sk_buff_cq_tail_nsegments (pop_n E.RING_SIZE j s.send_cq) ≤ (send_comp_avail E s).1) ∧
      ((icenet_complete_send E s = Res.ok () st ∧
          ((send_comp_avail E s).1 = total_segments (tail_entries E.RING_SIZE m s.send_cq) ∨
           (send_comp_avail E s).1 - total_segments (tail_entries E.RING_SIZE m s.send_cq)
             < sk_buff_cq_tail_nsegments st.send_cq)) ∨
       (icenet_complete_send E s = Res.bug st ∧
          total_segments (tail_entries E.RING_SIZE m s.send_cq) < (send_comp_avail E s).1 ∧
          SK_BUFF_CQ_COUNT E.RING_SIZE st.send_cq = 0)) := by
  obtain ⟨m, st, f1, f2, f3, f4, f5, f6⟩ :=
    complete_send_loop_spec E (send_comp_avail E s).1 (send_comp_avail E s).1
      (send_comp_avail E s).2 (Nat.le_refl _)
  have hcq : (send_comp_avail E s).2.send_cq = s.send_cq := rfl
  have htr : (send_comp_avail E s).2.trace
      = s.trace ++ [Event.ioread32 ICENET_COUNTS (E.dev s.trace ICENET_COUNTS % 2 ^ 32)] := rfl
  rw [hcq] at f2 f3 f4 f5 f6
  have hpf := pop_n_frame E.RING_SIZE m s.send_cq
  have hst : (icenet_complete_send E s).state = st := by
    unfold icenet_complete_send
    rcases f6 with ⟨g, _⟩ | ⟨g, _⟩ <;> rw [g] <;> rfl
  refine ⟨m, st, hst, f2, by rw [f2]; exact hpf.1, by rw [f2]; exact hpf.2, ?_, ?_, f5, ?_, ?_⟩
  · rw [f3, htr]; simp [consumed]
  · rw [f4, htr]; simp [reads_at, ICENET_SEND_COMP, ICENET_COUNTS]
  · intro j hj
    have h1 := total_segments_tail_mono E.RING_SIZE s.send_cq (j + 1) m (by omega)
    rw [tail_entries_succ, total_segments_append] at h1
    have h2 : total_segments [(sk_buff_cq_pop E.RING_SIZE (pop_n E.RING_SIZE j s.send_cq)).1]
        = sk_buff_cq_tail_nsegments (pop_n E.RING_SIZE j s.send_cq) := by
      simp [total_segments, sk_buff_cq_tail_nsegments, sk_buff_cq_pop]
    omega
  · exact f6

/-- C1, witness: ring size 16, one queued buffer of 3 segments.  With 2
completions available the entry is left in place (no completion read, nothing
released); with 3 it is popped after exactly 3 reads and released. -/
theorem icenet_complete_send_fifo_witness :
    (∃ st, icenet_complete_send (env_const 0x20000 0)
          (icenet_post_send (env_const 0 0) nic_idle skb_two_frags) = Res.ok () st ∧
        st.send_cq.tail = 0 ∧ st.send_cq.head = 1 ∧ consumed st.trace = [] ∧
        (reads_at ICENET_SEND_COMP st.trace).length = 0) ∧
    (∃ st, icenet_complete_send (env_const 0x30000 0)
          (icenet_post_send (env_const 0 0) nic_idle skb_two_frags) = Res.ok () st ∧
        st.send_cq.tail = 1 ∧ st.send_cq.head = 1 ∧ consumed st.trace = [skb_two_frags] ∧
        (reads_at ICENET_SEND_COMP st.trace).length = 3) := by
  have hseg : ∀ m, 3 ≤ total_segments (tail_entries 16 (m + 1)
      (icenet_post_send (env_const 0 0) nic_idle skb_two_frags).send_cq) := by
    intro m
    rw [tail_entries, total_segments]
    have : (sk_buff_cq_pop 16
        (icenet_post_send (env_const 0 0) nic_idle skb_two_frags).send_cq).1.nr_frags = 2 := by
      decide
    omega
  have hseg2 : ∀ m, 4 ≤ total_segments (tail_entries 16 (m + 1 + 1)
      (icenet_post_send (env_const 0 0) nic_idle skb_two_frags).send_cq) := by
    intro m
    rw [tail_entries, total_segments, tail_entries, total_segments]
    have : (sk_buff_cq_pop 16
        (icenet_post_send (env_const 0 0) nic_idle skb_two_frags).send_cq).1.nr_frags = 2 := by
      decide
    omega
  have hcount : SK_BUFF_CQ_COUNT 16
      (icenet_post_send (env_const 0 0) nic_idle skb_two_frags).send_cq ≠ 0 := by decide
  constructor
  · obtain ⟨m, st, _, h2, h3, _, h5, h6, h7, _, h9⟩ :=
      icenet_complete_send_fifo (env_const 0x20000 0)
        (icenet_post_send (env_const 0 0) nic_idle skb_two_frags)
    have hn : (send_comp_avail (env_const 0x20000 0)
        (icenet_post_send (env_const 0 0) nic_idle skb_two_frags)).1 = 2 := by decide
    rw [hn] at h7 h9
    have hR : (env_const 0x20000 0).RING_SIZE = 16 := rfl
    rw [hR] at h2 h5 h6 h7 h9
    have hm : m = 0 := by
      rcases m with _ | m
      · rfl
      · have := hseg m; omega
    subst hm
    rcases h9 with ⟨g, _⟩ | ⟨_, _, g⟩
    · refine ⟨st, g, ?_, ?_, ?_, ?_⟩
      · rw [h2]; rfl
      · rw [h3]; rfl
      · rw [h5]; rfl
      · rw [h6]; rfl
    · rw [h2] at g; exact absurd g hcount
  · obtain ⟨m, st, _, h2, h3, _, h5, h6, h7, _, h9⟩ :=
      icenet_complete_send_fifo (env_const 0x30000 0)
        (icenet_post_send (env_const 0 0) nic_idle skb_two_frags)
    have hn : (send_comp_avail (env_const 0x30000 0)
        (icenet_post_send (env_const 0 0) nic_idle skb_two_frags)).1 = 3 := by decide
    rw [hn] at h7 h9
    have hR : (env_const 0x30000 0).RING_SIZE = 16 := rfl
    rw [hR] at h2 h5 h6 h7 h9
    have hm : m = 1 := by
      rcases m with _ | _ | m
      · exfalso
        rcases h9 with ⟨_, g | g⟩ | ⟨_, _, g⟩
        · simp [tail_entries, total_segments] at g
        · rw [h2] at g
          have : sk_buff_cq_tail_nsegments (pop_n 16 0
              (icenet_post_send (env_const 0 0) nic_idle skb_two_frags).send_cq) = 3 := by decide
          rw [this] at g
          simp [tail_entries, total_segments] at g
        · rw [h2] at g; exact hcount g
      · rfl
      · have := hseg2 m; omega
    subst hm
    rcases h9 with ⟨g, _⟩ | ⟨_, g, _⟩
    · refine ⟨st, g, ?_, ?_, ?_, ?_⟩
      · rw [h2]; decide
      · rw [h3]; rfl
      · rw [h5]; decide
      · rw [h6]; decide
    · have := hseg 0
      rw [Nat.zero_add] at this
      omega

/-- What the later proofs use of `icenet_complete_send`: it ends by
returning or in `BUG_ON` (never out of fuel), and only the send queue's tail
and the read/release events changed. -/
theorem complete_send_frame (E : Env) (s : Nic) :
    ∃ st, (icenet_complete_send E s = Res.ok () st ∨ icenet_complete_send E s = Res.bug st) ∧
      tx_frame s st := by
  obtain ⟨m, st, f1, _, _, _, _, f6⟩ :=
    complete_send_loop_spec E (send_comp_avail E s).1 (send_comp_avail E s).1
      (send_comp_avail E s).2 (Nat.le_refl _)
  refine ⟨st, ?_, tx_frame_trans ?_ f1⟩
  · unfold icenet_complete_send
    rcases f6 with ⟨g, _⟩ | ⟨g, _⟩
    · exact Or.inl g
    · exact Or.inr g
  · simpa [send_comp_avail] using tx_frame_ioread32 E s ICENET_COUNTS

/-! ## C3 and C9: the descriptors of `icenet_post_send` -/

theorem desc_fields (p len a : Nat) (hp : p ≤ 1) (hl : len < 2 ^ 15) (ha : a < 2 ^ 48) :
    desc_cont (p * 2 ^ 63 + len * 2 ^ 48 + a) = p ∧
    desc_len (p * 2 ^ 63 + len * 2 ^ 48 + a) = len ∧
    desc_addr (p * 2 ^ 63 + len * 2 ^ 48 + a) = a := by
  unfold desc_cont desc_len desc_addr
  refine ⟨by omega, by omega, by omega⟩

theorem frag_packet_fields (frag : SkbFrag) (last : Nat) (hlen : frag.size < 2 ^ 15) :
    desc_cont (post_send_frag_packet frag last % 2 ^ 64) = (if last = 0 then 1 else 0) ∧
    desc_len (post_send_frag_packet frag last % 2 ^ 64) = frag.size ∧
    desc_addr (post_send_frag_packet frag last % 2 ^ 64)
      = (frag.page_phys + frag.page_offset) % 2 ^ 64 % 2 ^ 48 := by
  have hp : (if last = 0 then 1 else 0) ≤ 1 := by split_ifs <;> omega
  have e1 : frag.size % 2 ^ 64 = frag.size := Nat.mod_eq_of_lt (by omega)
  have ha : (frag.page_phys + frag.page_offset) % 2 ^ 64 % 2 ^ 48 < 2 ^ 48 :=
    Nat.mod_lt _ (by decide)
  have hw : post_send_frag_packet frag last
      = (if last = 0 then 1 else 0) * 2 ^ 63 + frag.size * 2 ^ 48
        + (frag.page_phys + frag.page_offset) % 2 ^ 64 % 2 ^ 48 := by
    simp only [post_send_frag_packet]
    rw [e1]
    exact desc_word_eq _ _ _ hp hlen
  rw [hw, Nat.mod_eq_of_lt (by omega)]
  exact desc_fields _ _ _ hp hlen ha

theorem head_packet_fields (E : Env) (skb : SkBuff)
    (hlen : (if skb.nr_frags > 0 then skb_headlen skb else skb.len) + E.NET_IP_ALIGN < 2 ^ 15) :
    desc_cont (post_send_head_packet E skb % 2 ^ 64) = (if skb.nr_frags > 0 then 1 else 0) ∧
    desc_len (post_send_head_packet E skb % 2 ^ 64)
      = (if skb.nr_frags > 0 then skb_headlen skb else skb.len) + E.NET_IP_ALIGN ∧
    desc_addr (post_send_head_packet E skb % 2 ^ 64)
      = (E.virt_to_phys skb.data % 2 ^ 64 + (2 ^ 64 - E.NET_IP_ALIGN % 2 ^ 64)) % 2 ^ 64 % 2 ^ 48 := by
  have hp : (if skb.nr_frags > 0 then 1 else 0) ≤ 1 := by split_ifs <;> omega
  have e1 : ((if skb.nr_frags > 0 then skb_headlen skb else skb.len) + E.NET_IP_ALIGN) % 2 ^ 64
      = (if skb.nr_frags > 0 then skb_headlen skb else skb.len) + E.NET_IP_ALIGN :=
    Nat.mod_eq_of_lt (by omega)
  have ha : (E.virt_to_phys skb.data % 2 ^ 64 + (2 ^ 64 - E.NET_IP_ALIGN % 2 ^ 64)) % 2 ^ 64
      % 2 ^ 48 < 2 ^ 48 := Nat.mod_lt _ (by decide)
  have hw : post_send_head_packet E skb
      = (if skb.nr_frags > 0 then 1 else 0) * 2 ^ 63
        + ((if skb.nr_frags > 0 then skb_headlen skb else skb.len) + E.NET_IP_ALIGN) * 2 ^ 48
        + (E.virt_to_phys skb.data % 2 ^ 64 + (2 ^ 64 - E.NET_IP_ALIGN % 2 ^ 64)) % 2 ^ 64
            % 2 ^ 48 := by
    simp only [post_send_head_packet]
    rw [e1]
    exact desc_word_eq _ _ _ hp hlen
  rw [hw, Nat.mod_eq_of_lt (by omega)]
  exact desc_fields _ _ _ hp hlen ha

theorem post_send_frags_spec (skb : SkBuff) (k : Nat) :
    ∀ (i : Nat) (s : Nic),
      (post_send_frags skb k i s).trace = s.trace ++ (List.range' i k).map (fun j =>
        Event.iowrite64 ICENET_SEND_REQ
          (post_send_frag_packet (skb.frag j) (if j = skb.nr_frags - 1 then 1 else 0) % 2 ^ 64)) ∧
      (post_send_frags skb k i s).send_cq = s.send_cq ∧
      (post_send_frags skb k i s).recv_cq = s.recv_cq ∧
      (post_send_frags skb k i s).stats = s.stats ∧
      (post_send_frags skb k i s).queue_stopped = s.queue_stopped ∧
      (post_send_frags skb k i s).intmask = s.intmask := by
  induction k with
  | zero => intro i s; simp [post_send_frags]
  | succ k ih =>
    intro i s
    obtain ⟨h1, h2, h3, h4, h5, h6⟩ :=
      ih (i + 1) (post_send_frag s (skb.frag i) (if i = skb.nr_frags - 1 then 1 else 0))
    refine ⟨?_, ?_, ?_, ?_, ?_, ?_⟩
    · rw [post_send_frags, h1]
      simp only [post_send_frag, iowrite64, List.range', List.map_cons, List.append_assoc,
        List.singleton_append]
    · rw [post_send_frags, h2]; simp only [post_send_frag, iowrite64]
    · rw [post_send_frags, h3]; simp only [post_send_frag, iowrite64]
    · rw [post_send_frags, h4]; simp only [post_send_frag, iowrite64]
    · rw [post_send_frags, h5]; simp only [post_send_frag, iowrite64]
    · rw [post_send_frags, h6]; simp only [post_send_frag, iowrite64]

theorem post_send_words_get (f : Nat → Nat) (k j w : Nat)
    (h : ((List.range' 0 k).map f)[j]? = some w) : j < k ∧ w = f j := by
  rw [List.getElem?_map] at h
  rcases Nat.lt_or_ge j k with hj | hj
  · rw [List.getElem?_range' _ _ hj] at h
    simp at h
    exact ⟨hj, h.symm⟩
  · rw [List.getElem?_eq_none (by simpa using hj)] at h
    simp at h

/-- C3 (as amended): for a buffer with `k = nr_frags` fragments whose segment
lengths as written to the device are below `2^15` (head length plus
`NET_IP_ALIGN`, and every fragment size), `icenet_post_send` appends exactly
`1 + k` events, all
of them writes to the transmit descriptor register: the head descriptor
first, then the fragments in index order.  The continuation bit (bit 63) is
set on every descriptor except the last one written (so the head is last
exactly when `k = 0`).  Afterwards one entry has been pushed onto the send
shadow queue, at the old `head`, with segment count `1 + k`; on a queue that
was empty this is what `sk_buff_cq_tail_nsegments` reports. -/
theorem icenet_post_send_descriptors (E : Env) (s : Nic) (skb : SkBuff)
    (hhead : (if skb.nr_frags > 0 then skb_headlen skb else skb.len) + E.NET_IP_ALIGN < 2 ^ 15)
    (hfrag : ∀ i, i < skb.nr_frags → (skb.frag i).size < 2 ^ 15) :
    ∃ ws : List Nat,
      (icenet_post_send E s skb).trace = s.trace ++ ws.map (Event.iowrite64 ICENET_SEND_REQ) ∧
      ws.length = 1 + skb.nr_frags ∧
      (∀ j w, ws[j]? = some w → desc_cont w = if j = skb.nr_frags then 0 else 1) ∧
      ws[0]? = some (post_send_head_packet E skb % 2 ^ 64) ∧
      (∀ i, i < skb.nr_frags → ∃ w, ws[i + 1]? = some w ∧
        desc_len w = (skb.frag i).size ∧
        desc_addr w = ((skb.frag i).page_phys + (skb.frag i).page_offset) % 2 ^ 64 % 2 ^ 48) ∧
      (icenet_post_send E s skb).send_cq = sk_buff_cq_push E.RING_SIZE s.send_cq skb ∧
      ((icenet_post_send E s skb).send_cq.entries s.send_cq.head).nr_frags + 1
        = 1 + skb.nr_frags ∧
      (s.send_cq.head = s.send_cq.tail →
        sk_buff_cq_tail_nsegments (icenet_post_send E s skb).send_cq = 1 + skb.nr_frags) := by
  obtain ⟨h1, h2, _, _, _, _⟩ := post_send_frags_spec skb skb.nr_frags 0
    (iowrite64 s (post_send_head_packet E skb) ICENET_SEND_REQ)
  have hcq : (icenet_post_send E s skb).send_cq = sk_buff_cq_push E.RING_SIZE s.send_cq skb := by
    unfold icenet_post_send
    simp only [h2]
    rfl
  refine ⟨(post_send_head_packet E skb % 2 ^ 64) :: (List.range' 0 skb.nr_frags).map (fun j =>
      post_send_frag_packet (skb.frag j) (if j = skb.nr_frags - 1 then 1 else 0) % 2 ^ 64),
    ?_, ?_, ?_, ?_, ?_, hcq, ?_, ?_⟩
  · unfold icenet_post_send
    simp only [h1]
    simp [iowrite64, Function.comp_def]
  · simp; omega
  · intro j w hw
    rcases j with _ | j
    · simp only [List.getElem?_cons_zero, Option.some.injEq] at hw
      rw [← hw, (head_packet_fields E skb hhead).1]
      by_cases hk : skb.nr_frags = 0
      · simp [hk]
      · have : 0 ≠ skb.nr_frags := fun h => hk h.symm
        simp [this]; omega
    · rw [List.getElem?_cons_succ] at hw
      obtain ⟨hj, rfl⟩ := post_send_words_get _ _ _ _ hw
      rw [(frag_packet_fields _ _ (hfrag j hj)).1]
      by_cases hl : j = skb.nr_frags - 1
      · have : j + 1 = skb.nr_frags := by omega
        rw [if_pos hl, if_pos this]; rfl
      · have : j + 1 ≠ skb.nr_frags := by omega
        rw [if_neg hl, if_neg this]; rfl
  · simp
  · intro i hi
    have hf := frag_packet_fields (skb.frag i) (if i = skb.nr_frags - 1 then 1 else 0) (hfrag i hi)
    refine ⟨post_send_frag_packet (skb.frag i) (if i = skb.nr_frags - 1 then 1 else 0) % 2 ^ 64,
      ?_, hf.2.1, hf.2.2⟩
    rw [List.getElem?_cons_succ, List.getElem?_map, List.getElem?_range' _ _ hi]
    simp
  · rw [hcq]; simp [sk_buff_cq_push]; omega
  · intro he
    rw [hcq]
    simp [sk_buff_cq_tail_nsegments, sk_buff_cq_push, he]; omega

/-- C3, witness: a buffer with `k = 2` fragments on an idle device gives 3
descriptor writes (head at `0x2040` of 102 bytes, then the two fragments,
only the last without the continuation bit) and one shadow-queue entry with
segment count 3. -/
theorem icenet_post_send_descriptors_witness :
    ∃ ws : List Nat,
      (icenet_post_send (env_const 0 0) nic_idle skb_two_frags).trace
        = nic_idle.trace ++ ws.map (Event.iowrite64 ICENET_SEND_REQ) ∧
      ws.length = 3 ∧
      writes_at ICENET_SEND_REQ (icenet_post_send (env_const 0 0) nic_idle skb_two_frags).trace
        = [0x8066000000002040, 0x8064000000003000, 0x0064000000004008] ∧
      sk_buff_cq_tail_nsegments (icenet_post_send (env_const 0 0) nic_idle skb_two_frags).send_cq
        = 3 := by
  obtain ⟨ws, h1, h2, _, _, _, _, _, h8⟩ :=
    icenet_post_send_descriptors (env_const 0 0) nic_idle skb_two_frags (by decide) (by decide)
  exact ⟨ws, h1, h2, by decide, h8 rfl⟩

/-- C3, counterexample to the claim as stated: a linear buffer (`k = 0`) of
32766 bytes, below `2^15`, with `NET_IP_ALIGN = 2`.  The length written is
`32768 = 2^15`, whose top bit lands in bit 63: the only descriptor written,
which is the last one, carries the continuation bit (and a length field of
0). -/
theorem icenet_post_send_cont_bit_counterexample :
    ({ skb_linear with len := 32766 } : SkBuff).nr_frags = 0 ∧
    ({ skb_linear with len := 32766 } : SkBuff).len < 2 ^ 15 ∧
    writes_at ICENET_SEND_REQ
      (icenet_post_send (env_const 0 0) nic_idle { skb_linear with len := 32766 }).trace
        = [0x8000000000005040] ∧
    (writes_at ICENET_SEND_REQ
      (icenet_post_send (env_const 0 0) nic_idle { skb_linear with len := 32766 }).trace).map
        desc_cont = [1] ∧
    (writes_at ICENET_SEND_REQ
      (icenet_post_send (env_const 0 0) nic_idle { skb_linear with len := 32766 }).trace).map
        desc_len = [0] := by
  decide

theorem or_bit63 (p l : Nat) (hl : l < 2 ^ 15) :
    p * 2 ^ 63 ||| l * 2 ^ 48 = p * 2 ^ 63 + l * 2 ^ 48 := by
  have := Nat.mul_add_lt_is_or (by omega : l * 2 ^ 48 < 2 ^ 63) p
  rw [Nat.mul_comm] at this
  exact this.symm

theorem or_low48 (x a : Nat) (ha : a < 2 ^ 48) :
    x * 2 ^ 48 ||| a = x * 2 ^ 48 + a := by
  have := Nat.mul_add_lt_is_or ha x
  rw [Nat.mul_comm] at this
  exact this.symm

/-- The descriptor word for arbitrary operands: the address field holds the
low 48 bits of `a`, the length field the low 15 bits of `len`, and bit 63 is
the flag `p` unless bit 15 of `len` spills into it. -/
theorem desc_word_gen (p len a : Nat) (hp : p ≤ 1) :
    ∃ q, q ≤ 1 ∧ (len < 2 ^ 15 → q = p) ∧ (p = 1 → q = 1) ∧
      ((p <<< 63) % 2 ^ 64) ||| ((len <<< 48) % 2 ^ 64) ||| (a &&& 0xffffffffffff) =
        q * 2 ^ 63 + (len % 2 ^ 15) * 2 ^ 48 + a % 2 ^ 48 := by
  have hmask : a &&& 0xffffffffffff = a % 2 ^ 48 := Nat.and_pow_two_sub_one_eq_mod a 48
  have ha : a % 2 ^ 48 < 2 ^ 48 := Nat.mod_lt _ (by decide)
  have hl : len % 2 ^ 15 < 2 ^ 15 := Nat.mod_lt _ (by decide)
  have hA : (p <<< 63) % 2 ^ 64 = p * 2 ^ 63 := by
    rw [Nat.shiftLeft_eq, Nat.mod_eq_of_lt (by omega)]
  have hB : (len <<< 48) % 2 ^ 64 = (len / 2 ^ 15 % 2) * 2 ^ 63 + (len % 2 ^ 15) * 2 ^ 48 := by
    rw [Nat.shiftLeft_eq]; omega
  have hb : len / 2 ^ 15 % 2 ≤ 1 := by omega
  have hB2 : (len / 2 ^ 15 % 2) * 2 ^ 63 + (len % 2 ^ 15) * 2 ^ 48
      = (len / 2 ^ 15 % 2) * 2 ^ 63 ||| (len % 2 ^ 15) * 2 ^ 48 := (or_bit63 _ _ hl).symm
  have key : ∀ q, q ≤ 1 → (q * 2 ^ 63 + (len % 2 ^ 15) * 2 ^ 48) ||| a % 2 ^ 48
      = q * 2 ^ 63 + (len % 2 ^ 15) * 2 ^ 48 + a % 2 ^ 48 := by
    intro q _
    have e : q * 2 ^ 63 + (len % 2 ^ 15) * 2 ^ 48 = (q * 2 ^ 15 + len % 2 ^ 15) * 2 ^ 48 := by
      omega
    rw [e]
    exact or_low48 _ _ ha
  rw [hmask, hA, hB]
  rcases Nat.eq_zero_or_pos p with hp0 | hp1
  · subst hp0
    refine ⟨len / 2 ^ 15 % 2, hb, ?_, ?_, ?_⟩
    · intro h; omega
    · intro h; omega
    · rw [Nat.zero_mul, Nat.zero_or]
      exact key _ hb
  · have hp1 : p = 1 := by omega
    subst hp1
    refine ⟨1, Nat.le_refl _, fun _ => rfl, fun _ => rfl, ?_⟩
    have hor : 1 * 2 ^ 63 ||| ((len / 2 ^ 15 % 2) * 2 ^ 63 + (len % 2 ^ 15) * 2 ^ 48)
        = 1 * 2 ^ 63 + (len % 2 ^ 15) * 2 ^ 48 := by
      rcases Nat.eq_zero_or_pos (len / 2 ^ 15 % 2) with hb0 | hb1
      · rw [hb0, Nat.zero_mul, Nat.zero_add]
        exact or_bit63 1 _ hl
      · have hb1 : len / 2 ^ 15 % 2 = 1 := by omega
        rw [hb1, ← or_bit63 1 _ hl, ← Nat.or_assoc, Nat.or_self]
    rw [hor]
    exact key 1 (Nat.le_refl _)

theorem head_packet_gen (E : Env) (skb : SkBuff) :
    post_send_head_packet E skb < 2 ^ 64 ∧
    desc_addr (post_send_head_packet E skb)
      = (E.virt_to_phys skb.data % 2 ^ 64 + (2 ^ 64 - E.NET_IP_ALIGN % 2 ^ 64)) % 2 ^ 64 % 2 ^ 48 ∧
    desc_len (post_send_head_packet E skb)
      = ((if skb.nr_frags > 0 then skb_headlen skb else skb.len) + E.NET_IP_ALIGN) % 2 ^ 15 := by
  have hp : (if skb.nr_frags > 0 then 1 else 0) ≤ 1 := by split_ifs <;> omega
  obtain ⟨q, hq, _, _, hw⟩ := desc_word_gen (if skb.nr_frags > 0 then 1 else 0)
    (((if skb.nr_frags > 0 then skb_headlen skb else skb.len) + E.NET_IP_ALIGN) % 2 ^ 64)
    ((E.virt_to_phys skb.data % 2 ^ 64 + (2 ^ 64 - E.NET_IP_ALIGN % 2 ^ 64)) % 2 ^ 64) hp
  have hw2 : post_send_head_packet E skb = _ := hw
  have ha : (E.virt_to_phys skb.data % 2 ^ 64 + (2 ^ 64 - E.NET_IP_ALIGN % 2 ^ 64)) % 2 ^ 64
      % 2 ^ 48 < 2 ^ 48 := Nat.mod_lt _ (by decide)
  have hl : ((if skb.nr_frags > 0 then skb_headlen skb else skb.len) + E.NET_IP_ALIGN) % 2 ^ 64
      % 2 ^ 15 < 2 ^ 15 := Nat.mod_lt _ (by decide)
  have hf := desc_fields q _ _ hq hl ha
  rw [hw2]
  refine ⟨by omega, hf.2.2, ?_⟩
  rw [hf.2.1]; omega

/-- C9 (as amended): for every buffer, the first word `icenet_post_send`
writes to the transmit descriptor register is the head descriptor; its
address field is the low 48 bits of the physical address of the buffer data
minus `NET_IP_ALIGN`, and its length field is the low 15 bits of the head
segment length (`skb_headlen` when fragments follow, the whole buffer length
otherwise) plus `NET_IP_ALIGN`.  In particular, when the values fit their
fields, the address is reduced by the constant and the length is increased by
it. -/
theorem icenet_post_send_head (E : Env) (s : Nic) (skb : SkBuff) :
    ∃ (w : Nat) (rest : List Event),
      (icenet_post_send E s skb).trace = s.trace ++ Event.iowrite64 ICENET_SEND_REQ w :: rest ∧
      desc_addr w
        = (E.virt_to_phys skb.data % 2 ^ 64 + (2 ^ 64 - E.NET_IP_ALIGN % 2 ^ 64)) % 2 ^ 64 % 2 ^ 48 ∧
      desc_len w
        = ((if skb.nr_frags > 0 then skb_headlen skb else skb.len) + E.NET_IP_ALIGN) % 2 ^ 15 ∧
      (E.NET_IP_ALIGN ≤ E.virt_to_phys skb.data → E.virt_to_phys skb.data < 2 ^ 48 →
        desc_addr w = E.virt_to_phys skb.data - E.NET_IP_ALIGN) ∧
      ((if skb.nr_frags > 0 then skb_headlen skb else skb.len) + E.NET_IP_ALIGN < 2 ^ 15 →
        desc_len w = (if skb.nr_frags > 0 then skb_headlen skb else skb.len) + E.NET_IP_ALIGN) := by
  obtain ⟨h1, _⟩ := post_send_frags_spec skb skb.nr_frags 0
    (iowrite64 s (post_send_head_packet E skb) ICENET_SEND_REQ)
  obtain ⟨g1, g2, g3⟩ := head_packet_gen E skb
  refine ⟨post_send_head_packet E skb, (List.range' 0 skb.nr_frags).map (fun j =>
      Event.iowrite64 ICENET_SEND_REQ
        (post_send_frag_packet (skb.frag j) (if j = skb.nr_frags - 1 then 1 else 0) % 2 ^ 64)),
    ?_, g2, g3, ?_, ?_⟩
  · unfold icenet_post_send
    simp only [h1]
    simp only [iowrite64, List.append_assoc, List.singleton_append, Nat.mod_eq_of_lt g1]
  · intro hlo hhi
    rw [g2]; omega
  · intro hl
    rw [g3]; omega

/-- C9, witness: the two-fragment sample buffer (data at `0x2042`, head
length 100) with `NET_IP_ALIGN = 2`: address field `0x2040`, length field
102. -/
theorem icenet_post_send_head_witness :
    ∃ (w : Nat) (rest : List Event),
      (icenet_post_send (env_const 0 0) nic_idle skb_two_frags).trace
        = nic_idle.trace ++ Event.iowrite64 ICENET_SEND_REQ w :: rest ∧
      desc_addr w = 0x2040 ∧ desc_len w = 102 := by
  obtain ⟨w, rest, h1, _, _, h4, h5⟩ :=
    icenet_post_send_head (env_const 0 0) nic_idle skb_two_frags
  exact ⟨w, rest, h1, h4 (by decide) (by decide), h5 (by decide)⟩

/-- C9, counterexample to the claim as stated: for the 60-byte linear sample
buffer with `NET_IP_ALIGN = 2` the head descriptor written has address field
`0x5042 - 2` but length field `62 = 60 + 2`, not the shortened `60 - 2`. -/
theorem icenet_post_send_head_len_counterexample :
    (writes_at ICENET_SEND_REQ (icenet_post_send (env_const 0 0) nic_idle skb_linear).trace).map
        desc_addr = [0x5042 - 2] ∧
    (writes_at ICENET_SEND_REQ (icenet_post_send (env_const 0 0) nic_idle skb_linear).trace).map
        desc_len = [60 + 2] ∧
    (writes_at ICENET_SEND_REQ (icenet_post_send (env_const 0 0) nic_idle skb_linear).trace).map
        desc_len ≠ [60 - 2] := by
  decide

/-! ## C5: draining receive completions under a budget -/

theorem cksum_frame_refl (s : Nic) : cksum_frame s s := by
  simp [cksum_frame]

theorem cksum_frame_trans {a b c : Nic} (h1 : cksum_frame a b) (h2 : cksum_frame b c) :
    cksum_frame a c := by
  obtain ⟨a1, a2, a3, a4, a5, a6, a7, a8, a9⟩ := h1
  obtain ⟨b1, b2, b3, b4, b5, b6, b7, b8, b9⟩ := h2
  exact ⟨b1.trans a1, b2.trans a2, b3.trans a3, b4.trans a4, b5.trans a5, b6.trans a6,
    b7.trans a7, b8.trans a8, b9.trans a9⟩

theorem cksum_frame_ioread16 (E : Env) (s : Nic) (off : Nat) :
    cksum_frame s (ioread16 E s off).2 := by
  simp [cksum_frame, ioread16, writes_at, freed, delivered, consumed]

theorem cksum_frame_write (s : Nic) (v : Nat) :
    cksum_frame s (iowrite64 s v ICENET_CKSUM_REQ) := by
  simp [cksum_frame, iowrite64, writes_at, freed, delivered, consumed, ICENET_CKSUM_REQ,
    ICENET_SEND_REQ]

theorem cksum_wait_space_spec (E : Env) (need : Nat) (fuel : Nat) :
    ∀ s : Nic, cksum_frame s (cksum_wait_space E need fuel s).state ∧
      writes_at ICENET_CKSUM_REQ (cksum_wait_space E need fuel s).state.trace
        = writes_at ICENET_CKSUM_REQ s.trace ∧
      stores (cksum_wait_space E need fuel s).state.trace = stores s.trace ∧
      (∀ st, cksum_wait_space E need fuel s ≠ Res.bug st) := by
  induction fuel with
  | zero =>
    intro s
    simp [cksum_wait_space, Res.state, cksum_frame_refl]
  | succ fuel ih =>
    intro s
    rw [cksum_wait_space]
    obtain ⟨h1, h2, h3, h4⟩ := ih (ioread16 E s ICENET_CKSUM_COUNTS).2
    split_ifs with hc
    · refine ⟨cksum_frame_trans (cksum_frame_ioread16 E s _) h1, ?_, ?_, h4⟩
      · rw [h2]; simp [ioread16, writes_at]
      · rw [h3]; simp [ioread16, stores]
    · refine ⟨cksum_frame_ioread16 E s _, ?_, ?_, ?_⟩
      · simp [Res.state, ioread16, writes_at]
      · simp [Res.state, ioread16, stores]
      · intro st h; cases h

theorem cksum_wait_resp_spec (E : Env) (fuel : Nat) :
    ∀ s : Nic, cksum_frame s (cksum_wait_resp E fuel s).state ∧
      writes_at ICENET_CKSUM_REQ (cksum_wait_resp E fuel s).state.trace
        = writes_at ICENET_CKSUM_REQ s.trace ∧
      stores (cksum_wait_resp E fuel s).state.trace = stores s.trace ∧
      (∀ st, cksum_wait_resp E fuel s ≠ Res.bug st) := by
  induction fuel with
  | zero =>
    intro s
    simp [cksum_wait_resp, Res.state, cksum_frame_refl]
  | succ fuel ih =>
    intro s
    rw [cksum_wait_resp]
    obtain ⟨h1, h2, h3, h4⟩ := ih (ioread16 E s ICENET_CKSUM_COUNTS).2
    split_ifs with hc
    · refine ⟨cksum_frame_trans (cksum_frame_ioread16 E s _) h1, ?_, ?_, h4⟩
      · rw [h2]; simp [ioread16, writes_at]
      · rw [h3]; simp [ioread16, stores]
    · refine ⟨cksum_frame_ioread16 E s _, ?_, ?_, ?_⟩
      · simp [Res.state, ioread16, writes_at]
      · simp [Res.state, ioread16, stores]
      · intro st h; cases h

/-- The fragment loop of the checksum path: as long as the fragments it
meets have addresses below `2^48` it writes one request each, in index
order; at the first fragment with an address `>= 2^48` it stops in `BUG_ON`
before writing that fragment's request. -/
theorem cksum_frags_spec (skb : SkBuff) (k : Nat) :
    ∀ (i : Nat) (s : Nic),
      cksum_frame s (cksum_frags skb k i s).state ∧
      stores (cksum_frags skb k i s).state.trace = stores s.trace ∧
      (∀ st, cksum_frags skb k i s ≠ Res.spin st) ∧
      ((∀ j, i ≤ j → j < i + k → (cksum_frag_request skb j).2 < 2 ^ 48) →
        (cksum_frags skb k i s).returned = true ∧
        writes_at ICENET_CKSUM_REQ (cksum_frags skb k i s).state.trace
          = writes_at ICENET_CKSUM_REQ s.trace
            ++ (List.range' i k).map (fun j => (cksum_frag_request skb j).1 % 2 ^ 64)) ∧
      (∀ m, m < k → (∀ j, i ≤ j → j < i + m → (cksum_frag_request skb j).2 < 2 ^ 48) →
        (cksum_frag_request skb (i + m)).2 ≥ 2 ^ 48 →
        cksum_frags skb k i s = Res.bug (cksum_frags skb k i s).state ∧
        writes_at ICENET_CKSUM_REQ (cksum_frags skb k i s).state.trace
          = writes_at ICENET_CKSUM_REQ s.trace
            ++ (List.range' i m).map (fun j => (cksum_frag_request skb j).1 % 2 ^ 64)) := by
  induction k with
  | zero =>
    intro i s
    refine ⟨cksum_frame_refl s, rfl, ?_, ?_, ?_⟩
    · intro st h; cases h
    · intro _; simp [cksum_frags, Res.returned, Res.state]
    · intro m hm; omega
  | succ k ih =>
    intro i s
    obtain ⟨h1, h2, h3, h4, h5⟩ := ih (i + 1) (iowrite64 s (cksum_frag_request skb i).1 ICENET_CKSUM_REQ)
    have hw : writes_at ICENET_CKSUM_REQ
        (iowrite64 s (cksum_frag_request skb i).1 ICENET_CKSUM_REQ).trace
        = writes_at ICENET_CKSUM_REQ s.trace ++ [(cksum_frag_request skb i).1 % 2 ^ 64] := by
      simp [iowrite64, writes_at]
    rw [cksum_frags]
    by_cases hbad : (cksum_frag_request skb i).2 ≥ 2 ^ 48
    · simp only [hbad, if_true]
      refine ⟨cksum_frame_refl s, rfl, ?_, ?_, ?_⟩
      · intro st h; cases h
      · intro hall
        have := hall i (Nat.le_refl _) (by omega)
        omega
      · intro m hm hgood _
        rcases Nat.eq_zero_or_pos m with h0 | hpos
        · subst h0; simp [Res.state]
        · have := hgood i (Nat.le_refl _) (by omega)
          omega
    · simp only [hbad, if_false]
      refine ⟨cksum_frame_trans (cksum_frame_write s _) h1, ?_, h3, ?_, ?_⟩
      · rw [h2]; simp [iowrite64, stores]
      · intro hall
        obtain ⟨g1, g2⟩ := h4 (fun j hj1 hj2 => hall j (by omega) (by omega))
        refine ⟨g1, ?_⟩
        rw [g2, hw]; simp [List.range']
      · intro m hm hgood hbadm
        rcases Nat.eq_zero_or_pos m with h0 | hpos
        · subst h0; exact absurd hbadm hbad
        · obtain ⟨g1, g2⟩ := h5 (m - 1) (by omega)
            (fun j hj1 hj2 => hgood j (by omega) (by omega))
            (by rw [show i + 1 + (m - 1) = i + m by omega]; exact hbadm)
          refine ⟨g1, ?_⟩
          rw [g2, hw]
          obtain ⟨m', rfl⟩ : ∃ m', m = m' + 1 := ⟨m - 1, by omega⟩
          simp [List.range']

theorem eq_ok_of_returned (r : Res Unit) (h : r.returned = true) : r = Res.ok () r.state := by
  cases r with
  | ok v s => rfl
  | bug s => simp [Res.returned] at h
  | spin s => simp [Res.returned] at h

/-- How `icenet_checksum_offload` runs when no address check fires and both
busy-waits end: it returns, having written the head request and then one
request per fragment, and its last two events are the read of the checksum
result register and the 16-bit store of the value read. -/
theorem checksum_offload_run (E : Env) (fuel : Nat) (s : Nic) (skb : SkBuff)
    (haddr0 : (cksum_head_request E skb).2 < 2 ^ 48)
    (haddr : ∀ j, j < skb.nr_frags → (cksum_frag_request skb j).2 < 2 ^ 48)
    (hw1 : (cksum_wait_space E (skb.nr_frags + 1) fuel s).returned = true)
    (hw2 : (cksum_wait_resp E fuel (cksum_mid_state E fuel s skb)).returned = true) :
    ∃ (st : Nic) (v : Nat),
      icenet_checksum_offload E fuel s skb
        = Res.ok { skb with ip_summed := CHECKSUM_NONE } st ∧
      cksum_frame s st ∧
      writes_at ICENET_CKSUM_REQ st.trace = writes_at ICENET_CKSUM_REQ s.trace
        ++ (cksum_head_request E skb).1 % 2 ^ 64
          :: (List.range' 0 skb.nr_frags).map (fun j => (cksum_frag_request skb j).1 % 2 ^ 64) ∧
      v = E.dev (cksum_wait_resp E fuel (cksum_mid_state E fuel s skb)).state.trace
            ICENET_CKSUM_RESP % 2 ^ 16 ∧
      st.trace = (cksum_wait_resp E fuel (cksum_mid_state E fuel s skb)).state.trace
        ++ [Event.ioread16 ICENET_CKSUM_RESP v,
            Event.store16 (skb.head + skb.csum_start + skb.csum_offset) v] ∧
      stores st.trace
        = stores s.trace ++ [(skb.head + skb.csum_start + skb.csum_offset, v)] := by
  obtain ⟨a1, a2, a3, _⟩ := cksum_wait_space_spec E (skb.nr_frags + 1) fuel s
  obtain ⟨b1, b2, _, b4, _⟩ := cksum_frags_spec skb skb.nr_frags 0
    (iowrite64 (cksum_wait_space E (skb.nr_frags + 1) fuel s).state
      (cksum_head_request E skb).1 ICENET_CKSUM_REQ)
  obtain ⟨b5, b6⟩ := b4 (fun j _ hj => haddr j (by omega))
  obtain ⟨c1, c2, c3, _⟩ := cksum_wait_resp_spec E fuel (cksum_mid_state E fuel s skb)
  have e1 := eq_ok_of_returned _ hw1
  have e2 := eq_ok_of_returned _ b5
  have e3 := eq_ok_of_returned _ hw2
  have hrun : icenet_checksum_offload E fuel s skb
      = Res.ok { skb with ip_summed := CHECKSUM_NONE }
          { (ioread16 E (cksum_wait_resp E fuel (cksum_mid_state E fuel s skb)).state
              ICENET_CKSUM_RESP).2 with
            trace := (ioread16 E (cksum_wait_resp E fuel (cksum_mid_state E fuel s skb)).state
                ICENET_CKSUM_RESP).2.trace
              ++ [Event.store16 (skb.head + skb.csum_start + skb.csum_offset)
                    (ioread16 E (cksum_wait_resp E fuel (cksum_mid_state E fuel s skb)).state
                      ICENET_CKSUM_RESP).1] } := by
    unfold icenet_checksum_offload
    rw [if_neg (by omega), e1]
    simp only [Res.bind]
    rw [e2]
    simp only [Res.bind]
    have e3b : cksum_wait_resp E fuel
        (cksum_frags skb skb.nr_frags 0
          (iowrite64 (cksum_wait_space E (skb.nr_frags + 1) fuel s).state
            (cksum_head_request E skb).1 ICENET_CKSUM_REQ)).state = _ := e3
    rw [e3b]
  have hmid : cksum_frame s (cksum_mid_state E fuel s skb) :=
    cksum_frame_trans a1 (cksum_frame_trans (cksum_frame_write _ _) b1)
  have hfin : cksum_frame s (cksum_wait_resp E fuel (cksum_mid_state E fuel s skb)).state :=
    cksum_frame_trans hmid c1
  refine ⟨_, E.dev (cksum_wait_resp E fuel (cksum_mid_state E fuel s skb)).state.trace
      ICENET_CKSUM_RESP % 2 ^ 16, hrun, ?_, ?_, rfl, ?_, ?_⟩
  · refine cksum_frame_trans hfin ?_
    simp [cksum_frame, ioread16, writes_at, freed, delivered, consumed]
  · have hmidw : writes_at ICENET_CKSUM_REQ (cksum_mid_state E fuel s skb).trace
        = writes_at ICENET_CKSUM_REQ s.trace
          ++ (cksum_head_request E skb).1 % 2 ^ 64
            :: (List.range' 0 skb.nr_frags).map (fun j => (cksum_frag_request skb j).1 % 2 ^ 64) := by
      unfold cksum_mid_state
      rw [b6]
      simp only [iowrite64, writes_at_append, a2]
      simp [writes_at]
    simp only [ioread16, writes_at_append, c2, hmidw]
    simp [writes_at]
  · simp [ioread16]
  · have hmids : stores (cksum_mid_state E fuel s skb).trace = stores s.trace := by
      unfold cksum_mid_state
      rw [b2]
      simp only [iowrite64, stores_append, a3]
      simp [stores]
    simp only [ioread16, stores_append, c3, hmids]
    simp [stores]

/-- C10 (as amended): for a buffer with exactly 2 fragments, all physical
addresses below `2^48`, on a device whose checksum counters let both
busy-waits end, `icenet_checksum_offload` returns after writing exactly 3
descriptors to the checksum descriptor register (the head span, then one per
fragment) and storing exactly one 16-bit value, the word read from the
checksum result register, at checksum start + `csum_offset`. -/
theorem icenet_checksum_offload_two_frags (E : Env) (fuel : Nat) (s : Nic) (skb : SkBuff)
    (hk : skb.nr_frags = 2)
    (haddr0 : E.virt_to_phys (skb.head + skb.csum_start) % 2 ^ 64 < 2 ^ 48)
    (haddr : ∀ j, j < skb.nr_frags →
      ((skb.frag j).page_phys + (skb.frag j).page_offset) % 2 ^ 64 < 2 ^ 48)
    (hw1 : (cksum_wait_space E (skb.nr_frags + 1) fuel s).returned = true)
    (hw2 : (cksum_wait_resp E fuel (cksum_mid_state E fuel s skb)).returned = true) :
    ∃ (st : Nic) (v : Nat),
      icenet_checksum_offload E fuel s skb
        = Res.ok { skb with ip_summed := CHECKSUM_NONE } st ∧
      writes_at ICENET_CKSUM_REQ st.trace = writes_at ICENET_CKSUM_REQ s.trace
        ++ [(cksum_head_request E skb).1 % 2 ^ 64, (cksum_frag_request skb 0).1 % 2 ^ 64,
            (cksum_frag_request skb 1).1 % 2 ^ 64] ∧
      v = E.dev (cksum_wait_resp E fuel (cksum_mid_state E fuel s skb)).state.trace
            ICENET_CKSUM_RESP % 2 ^ 16 ∧
      st.trace = (cksum_wait_resp E fuel (cksum_mid_state E fuel s skb)).state.trace
        ++ [Event.ioread16 ICENET_CKSUM_RESP v,
            Event.store16 (skb.head + skb.csum_start + skb.csum_offset) v] ∧
      stores st.trace
        = stores s.trace ++ [(skb.head + skb.csum_start + skb.csum_offset, v)] := by
  obtain ⟨st, v, h1, _, h3, h4, h5, h6⟩ :=
    checksum_offload_run E fuel s skb haddr0 haddr hw1 hw2
  refine ⟨st, v, h1, ?_, h4, h5, h6⟩
  rw [h3, hk]
  rfl

/-- C10, witness: the two-fragment sample buffer on a device whose checksum
counter register reads `0x0103` (depth 3, one response ready). -/
theorem icenet_checksum_offload_two_frags_witness :
    ∃ (st : Nic) (v : Nat),
      icenet_checksum_offload (env_const 0 0x0103) 1 nic_idle skb_two_frags
        = Res.ok { skb_two_frags with ip_summed := CHECKSUM_NONE } st ∧
      (writes_at ICENET_CKSUM_REQ st.trace).length = 3 ∧
      stores st.trace = [(0x2000 + 0x64 + 16, v)] := by
  obtain ⟨st, v, h1, h2, _, _, h5⟩ :=
    icenet_checksum_offload_two_frags (env_const 0 0x0103) 1 nic_idle skb_two_frags rfl
      (by decide) (by decide) (by decide) (by decide)
  refine ⟨st, v, h1, ?_, ?_⟩
  · rw [h2]; rfl
  · rw [h5]; rfl

/-- C10, counterexample to the claim as stated: for the two-fragment sample
buffer the checksum descriptor register is written 3 times, not 2 (one 16-bit
value is stored, at checksum start + `csum_offset`). -/
theorem icenet_checksum_offload_count_counterexample :
    (writes_at ICENET_CKSUM_REQ
      (icenet_checksum_offload (env_const 0 0x0103) 1 nic_idle skb_two_frags).state.trace).length
        = 3 ∧
    (writes_at ICENET_CKSUM_REQ
      (icenet_checksum_offload (env_const 0 0x0103) 1 nic_idle skb_two_frags).state.trace).length
        ≠ 2 ∧
    stores (icenet_checksum_offload (env_const 0 0x0103) 1 nic_idle skb_two_frags).state.trace
      = [(0x2000 + 0x64 + 16, 0x0103)] := by
  decide

/-- The two descriptor-encoding paths of `icenet_checksum_offload` reject a
segment whose physical address is `>= 2^48`.
* Head span: `BUG_ON` fires before anything is read or written.
* Fragment `m` (head and earlier fragments in range, first wait ended):
  `BUG_ON` fires after the head request and the `m` earlier fragment
  requests; no request is written for fragment `m`. -/
theorem cksum_addr48_rejected (E : Env) (fuel : Nat) (s : Nic) (skb : SkBuff) :
    (E.virt_to_phys (skb.head + skb.csum_start) % 2 ^ 64 ≥ 2 ^ 48 →
      icenet_checksum_offload E fuel s skb = Res.bug s) ∧
    (∀ m, m < skb.nr_frags →
      E.virt_to_phys (skb.head + skb.csum_start) % 2 ^ 64 < 2 ^ 48 →
      (∀ j, j < m → ((skb.frag j).page_phys + (skb.frag j).page_offset) % 2 ^ 64 < 2 ^ 48) →
      ((skb.frag m).page_phys + (skb.frag m).page_offset) % 2 ^ 64 ≥ 2 ^ 48 →
      (cksum_wait_space E (skb.nr_frags + 1) fuel s).returned = true →
      ∃ st, icenet_checksum_offload E fuel s skb = Res.bug st ∧
        writes_at ICENET_CKSUM_REQ st.trace = writes_at ICENET_CKSUM_REQ s.trace
          ++ (cksum_head_request E skb).1 % 2 ^ 64
            :: (List.range' 0 m).map (fun j => (cksum_frag_request skb j).1 % 2 ^ 64)) := by
  refine ⟨?_, ?_⟩
  · intro h
    have h' : (cksum_head_request E skb).2 ≥ 2 ^ 48 := h
    unfold icenet_checksum_offload
    rw [if_pos h']
  · intro m hm h0 hgood hbad hw1
    have h0' : ¬ (cksum_head_request E skb).2 ≥ 2 ^ 48 := by
      have : (cksum_head_request E skb).2 < 2 ^ 48 := h0
      omega
    obtain ⟨_, a2, _, _⟩ := cksum_wait_space_spec E (skb.nr_frags + 1) fuel s
    obtain ⟨_, _, _, _, b5⟩ := cksum_frags_spec skb skb.nr_frags 0
      (iowrite64 (cksum_wait_space E (skb.nr_frags + 1) fuel s).state
        (cksum_head_request E skb).1 ICENET_CKSUM_REQ)
    obtain ⟨g1, g2⟩ := b5 m hm (fun j _ hj => hgood j (by omega))
      (by rw [Nat.zero_add]; exact hbad)
    refine ⟨(cksum_frags skb skb.nr_frags 0
      (iowrite64 (cksum_wait_space E (skb.nr_frags + 1) fuel s).state
        (cksum_head_request E skb).1 ICENET_CKSUM_REQ)).state, ?_, ?_⟩
    · unfold icenet_checksum_offload
      rw [if_neg h0']
      generalize cksum_wait_space E (skb.nr_frags + 1) fuel s = r1 at hw1 g1 ⊢
      cases r1 with
      | ok v s1 =>
        simp only [Res.bind, Res.state] at g1 ⊢
        generalize cksum_frags skb skb.nr_frags 0
          (iowrite64 s1 (cksum_head_request E skb).1 ICENET_CKSUM_REQ) = r at g1 ⊢
        cases r with
        | ok v s3 => cases g1
        | bug s3 => rfl
        | spin s3 => cases g1
      | bug s1 => simp [Res.returned] at hw1
      | spin s1 => simp [Res.returned] at hw1
    · rw [g2]
      simp only [iowrite64, writes_at_append, a2]
      simp [writes_at]

/-- C6 (the transmit paths miss the check): the code at a fragment whose
physical address is `2^48 + 0x40` and at a linear buffer whose data lies at
physical address `2^48 + 0x42`.
* `post_send_frag` does not fail: it writes one descriptor to the transmit
  descriptor register, whose address field is `0x40`.
* `icenet_post_send` does not fail: it writes the head descriptor, whose
  address field is `0x40`.
* `icenet_checksum_offload`, given the same fragment as fragment 0 of a
  buffer, stops in `BUG_ON` after the head request: no request is written for
  that fragment. -/
theorem post_send_addr48_unchecked :
    (2 : Nat) ^ 48 + 0x40 ≥ 2 ^ 48 ∧
    writes_at ICENET_SEND_REQ
      (post_send_frag nic_idle { page_phys := 2 ^ 48, page_offset := 0x40, size := 100 } 1).trace
        = [100 * 2 ^ 48 + 0x40] ∧
    writes_at ICENET_SEND_REQ
      (icenet_post_send (env_const 0 0) nic_idle { skb_linear with data := 2 ^ 48 + 0x42 }).trace
        = [62 * 2 ^ 48 + 0x40] ∧
    (icenet_checksum_offload (env_const 0 0x0103) 1 nic_idle
      { skb_two_frags with
        frags := [{ page_phys := 2 ^ 48, page_offset := 0x40, size := 100 },
                  { page_phys := 0x4000, page_offset := 8, size := 100 }] }).returned = false ∧
    (writes_at ICENET_CKSUM_REQ
      (icenet_checksum_offload (env_const 0 0x0103) 1 nic_idle
        { skb_two_frags with
          frags := [{ page_phys := 2 ^ 48, page_offset := 0x40, size := 100 },
                    { page_phys := 0x4000, page_offset := 8, size := 100 }] }).state.trace).length
        = 1 := by
  decide

/-! ## C4: admission control in `icenet_start_xmit` -/

theorem or_one_and_one (x : Nat) : (x ||| 1) &&& 1 = 1 := by
  rw [Nat.and_one_is_mod]
  have h : (x ||| 1).testBit 0 = true := by
    rw [Nat.testBit_or]; simp
  rw [Nat.testBit_zero] at h
  exact of_decide_eq_true h

theorem writes_at_map_write (off : Nat) (g : Nat → Nat) (l : List Nat) :
    writes_at off (l.map (fun j => Event.iowrite64 off (g j))) = l.map g := by
  induction l with
  | nil => rfl
  | cons x xs ih =>
    have : writes_at off (Event.iowrite64 off (g x) :: xs.map (fun j => Event.iowrite64 off (g j)))
        = g x :: writes_at off (xs.map (fun j => Event.iowrite64 off (g j))) := by
      simp [writes_at]
    rw [List.map_cons, this, ih, List.map_cons]

theorem freed_map_write (off : Nat) (g : Nat → Nat) (l : List Nat) :
    freed (l.map (fun j => Event.iowrite64 off (g j))) = [] := by
  induction l with
  | nil => rfl
  | cons x xs ih =>
    have : freed (Event.iowrite64 off (g x) :: xs.map (fun j => Event.iowrite64 off (g j)))
        = freed (xs.map (fun j => Event.iowrite64 off (g j))) := by
      simp [freed]
    rw [List.map_cons, this, ih]

theorem checksum_offload_frame (E : Env) (fuel : Nat) (s : Nic) (skb : SkBuff) :
    cksum_frame s (icenet_checksum_offload E fuel s skb).state ∧
    ∀ skb1 s7, icenet_checksum_offload E fuel s skb = Res.ok skb1 s7 →
      skb1 = { skb with ip_summed := CHECKSUM_NONE } := by
  unfold icenet_checksum_offload
  by_cases h0 : (cksum_head_request E skb).2 ≥ 2 ^ 48
  · rw [if_pos h0]
    exact ⟨cksum_frame_refl s, fun _ _ h => by cases h⟩
  · rw [if_neg h0]
    obtain ⟨a1, _⟩ := cksum_wait_space_spec E (skb.nr_frags + 1) fuel s
    generalize cksum_wait_space E (skb.nr_frags + 1) fuel s = r1 at a1 ⊢
    cases r1 with
    | bug s1 => exact ⟨a1, fun _ _ h => by cases h⟩
    | spin s1 => exact ⟨a1, fun _ _ h => by cases h⟩
    | ok v s1 =>
      obtain ⟨b1, _⟩ := cksum_frags_spec skb skb.nr_frags 0
        (iowrite64 s1 (cksum_head_request E skb).1 ICENET_CKSUM_REQ)
      have b0 : cksum_frame s (cksum_frags skb skb.nr_frags 0
          (iowrite64 s1 (cksum_head_request E skb).1 ICENET_CKSUM_REQ)).state :=
        cksum_frame_trans a1 (cksum_frame_trans (cksum_frame_write _ _) b1)
      simp only [Res.bind]
      generalize cksum_frags skb skb.nr_frags 0
        (iowrite64 s1 (cksum_head_request E skb).1 ICENET_CKSUM_REQ) = r2 at b0 ⊢
      cases r2 with
      | bug s3 => exact ⟨b0, fun _ _ h => by cases h⟩
      | spin s3 => exact ⟨b0, fun _ _ h => by cases h⟩
      | ok v3 s3 =>
        obtain ⟨c1, _⟩ := cksum_wait_resp_spec E fuel s3
        have c0 : cksum_frame s (cksum_wait_resp E fuel s3).state := cksum_frame_trans b0 c1
        simp only
        generalize cksum_wait_resp E fuel s3 = r3 at c0 ⊢
        cases r3 with
        | bug s4 => exact ⟨c0, fun _ _ h => by cases h⟩
        | spin s4 => exact ⟨c0, fun _ _ h => by cases h⟩
        | ok v4 s4 =>
          refine ⟨cksum_frame_trans c0 ?_, ?_⟩
          · simp [Res.state, cksum_frame, ioread16, writes_at, freed, delivered, consumed]
          · intro skb1 s7 h
            simp only [Res.ok.injEq] at h
            exact h.1.symm

theorem post_send_frame (E : Env) (s : Nic) (skb : SkBuff) :
    (icenet_post_send E s skb).stats = s.stats ∧
    (icenet_post_send E s skb).queue_stopped = s.queue_stopped ∧
    (icenet_post_send E s skb).intmask = s.intmask ∧
    (icenet_post_send E s skb).send_cq = sk_buff_cq_push E.RING_SIZE s.send_cq skb ∧
    freed (icenet_post_send E s skb).trace = freed s.trace ∧
    (writes_at ICENET_SEND_REQ (icenet_post_send E s skb).trace).length
      = (writes_at ICENET_SEND_REQ s.trace).length + (1 + skb.nr_frags) := by
  obtain ⟨h1, h2, _, h4, h5, h6⟩ := post_send_frags_spec skb skb.nr_frags 0
    (iowrite64 s (post_send_head_packet E skb) ICENET_SEND_REQ)
  refine ⟨?_, ?_, ?_, ?_, ?_, ?_⟩
  · unfold icenet_post_send; simp only [h4]; rfl
  · unfold icenet_post_send; simp only [h5]; rfl
  · unfold icenet_post_send; simp only [h6]; rfl
  · unfold icenet_post_send; simp only [h2]; rfl
  · unfold icenet_post_send
    simp only [h1, freed_append, freed_map_write]
    simp [iowrite64, freed]
  · unfold icenet_post_send
    simp only [h1, writes_at_append, writes_at_map_write]
    simp [iowrite64, writes_at]
    omega

theorem xmit_s1_frame (E : Env) (s : Nic) : tx_frame s (xmit_s1 E s) := by
  have h := tx_frame_send_space E s
  unfold xmit_s1
  split_ifs
  · exact tx_frame_trans h (by simp [tx_frame, set_intmask])
  · exact h

theorem xmit_s2_frame (E : Env) (s : Nic) : tx_frame s (xmit_s2 E s) := by
  obtain ⟨st, hst, hfr⟩ := complete_send_frame E (xmit_s1 E s)
  have hstate : (icenet_complete_send E (xmit_s1 E s)).state = st := by
    rcases hst with h | h <;> rw [h] <;> rfl
  unfold xmit_s2
  rw [hstate]
  exact tx_frame_trans (xmit_s1_frame E s) (tx_frame_trans hfr (tx_frame_send_space E st))

/-- From a state `s1` with the counters and released buffers of `s`, the
submission tail returns `NETDEV_TX_OK` as soon as its checksum stage
returns: the buffer is then posted by `icenet_post_send` and `tx_dropped`
is unchanged. -/
theorem start_xmit_submit_spec (E : Env) (fuel : Nat) (s s1 : Nic) (skb : SkBuff)
    (hfr : tx_frame s s1) :
    ∀ skb1 s7, xmit_cksum_stage E fuel s1 skb = Res.ok skb1 s7 →
      ∃ st, start_xmit_submit E fuel s1 skb = Res.ok NETDEV_TX_OK st ∧
        st.send_cq = (icenet_post_send E s7 skb1).send_cq ∧
        st.trace = (icenet_post_send E s7 skb1).trace ∧
        st.send_cq = sk_buff_cq_push E.RING_SIZE s1.send_cq skb1 ∧
        (writes_at ICENET_SEND_REQ st.trace).length
          = (writes_at ICENET_SEND_REQ s.trace).length + (1 + skb.nr_frags) ∧
        st.stats.tx_dropped = s.stats.tx_dropped ∧
        st.stats.tx_packets = s.stats.tx_packets + 1 ∧
        freed st.trace = freed s.trace := by
  intro skb1 s7 hck
  obtain ⟨p1, _, _, p4, p5, p6⟩ := post_send_frame E s7 skb1
  obtain ⟨f1, _, _, _, _, f7, f8, _, _⟩ := hfr
  have hs7 : cksum_frame s1 s7 ∧ skb1.nr_frags = skb.nr_frags := by
    unfold xmit_cksum_stage at hck
    split_ifs at hck with hp
    · obtain ⟨g1, g2⟩ := checksum_offload_frame E fuel s1 skb
      rw [hck] at g1
      exact ⟨g1, by rw [g2 skb1 s7 hck]⟩
    · simp only [Res.ok.injEq] at hck
      obtain ⟨rfl, rfl⟩ := hck
      exact ⟨cksum_frame_refl _, rfl⟩
  obtain ⟨⟨c1, _, _, _, c5, c6, c7, _, _⟩, hnr⟩ := hs7
  have hrun : start_xmit_submit E fuel s1 skb = Res.ok NETDEV_TX_OK
      { icenet_post_send E s7 skb1 with
        stats := { (icenet_post_send E s7 skb1).stats with
                   tx_packets := (icenet_post_send E s7 skb1).stats.tx_packets + 1
                   tx_bytes := (icenet_post_send E s7 skb1).stats.tx_bytes + skb1.len } } := by
    unfold start_xmit_submit
    unfold xmit_cksum_stage at hck
    rw [hck]
    rfl
  refine ⟨_, hrun, rfl, rfl, ?_, ?_, ?_, ?_, ?_⟩
  · simp only [p4, c5]
  · simp only [p6, c6, f7 ICENET_SEND_REQ, hnr]
  · simp only [p1, c1, f1]
  · simp only [p1, c1, f1]
  · simp only [p5, c7, f8]

theorem start_xmit_unfold (E : Env) (fuel : Nat) (s : Nic) (skb : SkBuff) :
    icenet_start_xmit E fuel s skb
      = (start_xmit_reclaim E (xmit_space1 E s) (skb.nr_frags + 1) (xmit_s1 E s)).bind
          fun tx_err s3 =>
            if tx_err then Res.ok NETDEV_TX_BUSY (start_xmit_drop s3 skb)
            else start_xmit_submit E fuel s3 skb := rfl

theorem start_xmit_reclaim_spec (E : Env) (s : Nic) (nsegs : Nat) :
    (nsegs ≤ xmit_space1 E s →
      start_xmit_reclaim E (xmit_space1 E s) nsegs (xmit_s1 E s) = Res.ok false (xmit_s1 E s)) ∧
    (xmit_space1 E s < nsegs → (icenet_complete_send E (xmit_s1 E s)).returned = true →
      start_xmit_reclaim E (xmit_space1 E s) nsegs (xmit_s1 E s)
        = Res.ok (decide (xmit_space2 E s < nsegs)) (xmit_s2 E s)) ∧
    (xmit_space1 E s < nsegs → (icenet_complete_send E (xmit_s1 E s)).returned = false →
      ∃ st, start_xmit_reclaim E (xmit_space1 E s) nsegs (xmit_s1 E s) = Res.bug st) := by
  refine ⟨?_, ?_, ?_⟩
  · intro h
    unfold start_xmit_reclaim
    rw [if_neg (by omega)]
  · intro h hret
    unfold start_xmit_reclaim xmit_space2 xmit_s2
    rw [if_pos h]
    generalize icenet_complete_send E (xmit_s1 E s) = r at hret ⊢
    cases r with
    | ok v st => rfl
    | bug st => simp [Res.returned] at hret
    | spin st => simp [Res.returned] at hret
  · intro h hret
    obtain ⟨st, hst, _⟩ := complete_send_frame E (xmit_s1 E s)
    unfold start_xmit_reclaim
    rw [if_pos h]
    rcases hst with h1 | h1
    · rw [h1] at hret; simp [Res.returned] at hret
    · exact ⟨st, by rw [h1]; rfl⟩

/-- C4 (as amended): admission control of `icenet_start_xmit`, for a buffer needing
`nsegs = nr_frags + 1` segments, with `space = min(send_req_avail, send
shadow queue space)` sampled before (`xmit_space1`) and after (`xmit_space2`)
the `icenet_complete_send` reclamation attempt.
* If `space` is below `nsegs` both times, the call returns
  `NETDEV_TX_BUSY`: no transmit descriptor was written, nothing was pushed
  onto the send shadow queue, the buffer was released, `tx_dropped` grew by
  exactly 1, the transmit queue is stopped and the TX bit of the interrupt
  mask is set.
* In every other case in which the reclamation attempt (if made) returns,
  the call continues with the submission tail; as soon as its checksum stage
  returns the buffer is posted by `icenet_post_send`: `1 + nr_frags`
  descriptor writes, one push, `NETDEV_TX_OK`, `tx_dropped` unchanged,
  nothing freed.  The checksum stage returns at once for a buffer that is not
  `CHECKSUM_PARTIAL`, and for one that is whenever its addresses are below
  `2^48` and both busy-waits of the offload end.
* In the remaining cases the call does not return and writes no transmit
  descriptor: the `BUG_ON` of the reclamation attempt, and a checksum stage
  that ends in `BUG_ON` or is still spinning. -/
theorem icenet_start_xmit_admission (E : Env) (fuel : Nat) (s : Nic) (skb : SkBuff) :
    (xmit_space1 E s < skb.nr_frags + 1 →
      (icenet_complete_send E (xmit_s1 E s)).returned = true →
      xmit_space2 E s < skb.nr_frags + 1 →
      ∃ st, icenet_start_xmit E fuel s skb = Res.ok NETDEV_TX_BUSY st ∧
        writes_at ICENET_SEND_REQ st.trace = writes_at ICENET_SEND_REQ s.trace ∧
        st.send_cq.head = s.send_cq.head ∧ st.send_cq.entries = s.send_cq.entries ∧
        freed st.trace = freed s.trace ++ [skb] ∧
        st.stats.tx_dropped = s.stats.tx_dropped + 1 ∧
        st.queue_stopped = true ∧
        st.intmask &&& ICENET_INTMASK_TX = ICENET_INTMASK_TX) ∧
    (∀ s1,
      ((skb.nr_frags + 1 ≤ xmit_space1 E s ∧ s1 = xmit_s1 E s) ∨
       (xmit_space1 E s < skb.nr_frags + 1 ∧
        (icenet_complete_send E (xmit_s1 E s)).returned = true ∧
        skb.nr_frags + 1 ≤ xmit_space2 E s ∧ s1 = xmit_s2 E s)) →
      icenet_start_xmit E fuel s skb = start_xmit_submit E fuel s1 skb ∧
      (skb.ip_summed ≠ CHECKSUM_PARTIAL → xmit_cksum_stage E fuel s1 skb = Res.ok skb s1) ∧
      (skb.ip_summed = CHECKSUM_PARTIAL →
        E.virt_to_phys (skb.head + skb.csum_start) % 2 ^ 64 < 2 ^ 48 →
        (∀ j, j < skb.nr_frags →
          ((skb.frag j).page_phys + (skb.frag j).page_offset) % 2 ^ 64 < 2 ^ 48) →
        (cksum_wait_space E (skb.nr_frags + 1) fuel s1).returned = true →
        (cksum_wait_resp E fuel (cksum_mid_state E fuel s1 skb)).returned = true →
        ∃ s7, xmit_cksum_stage E fuel s1 skb
          = Res.ok { skb with ip_summed := CHECKSUM_NONE } s7) ∧
      (∀ skb1 s7, xmit_cksum_stage E fuel s1 skb = Res.ok skb1 s7 →
        ∃ st, icenet_start_xmit E fuel s skb = Res.ok NETDEV_TX_OK st ∧
          st.send_cq = (icenet_post_send E s7 skb1).send_cq ∧
          st.trace = (icenet_post_send E s7 skb1).trace ∧
          st.send_cq = sk_buff_cq_push E.RING_SIZE s1.send_cq skb1 ∧
          (writes_at ICENET_SEND_REQ st.trace).length
            = (writes_at ICENET_SEND_REQ s.trace).length + (1 + skb.nr_frags) ∧
          st.stats.tx_dropped = s.stats.tx_dropped ∧
          st.stats.tx_packets = s.stats.tx_packets + 1 ∧
          freed st.trace = freed s.trace) ∧
      (∀ st, xmit_cksum_stage E fuel s1 skb = Res.bug st →
        icenet_start_xmit E fuel s skb = Res.bug st ∧
        writes_at ICENET_SEND_REQ st.trace = writes_at ICENET_SEND_REQ s.trace) ∧
      (∀ st, xmit_cksum_stage E fuel s1 skb = Res.spin st →
        icenet_start_xmit E fuel s skb = Res.spin st ∧
        writes_at ICENET_SEND_REQ st.trace = writes_at ICENET_SEND_REQ s.trace)) ∧
    (xmit_space1 E s < skb.nr_frags + 1 →
      (icenet_complete_send E (xmit_s1 E s)).returned = false →
      ∃ st, icenet_start_xmit E fuel s skb = Res.bug st ∧
        writes_at ICENET_SEND_REQ st.trace = writes_at ICENET_SEND_REQ s.trace) := by
  obtain ⟨r1, r2, r3⟩ := start_xmit_reclaim_spec E s (skb.nr_frags + 1)
  refine ⟨?_, ?_, ?_⟩
  · intro h1 hret h2
    obtain ⟨f1, _, _, f5, f6, f7, f8, _, _⟩ := xmit_s2_frame E s
    refine ⟨start_xmit_drop (xmit_s2 E s) skb, ?_, ?_, f5, f6, ?_, ?_, rfl, ?_⟩
    · rw [start_xmit_unfold, r2 h1 hret]
      simp [Res.bind, h2]
    · simp [start_xmit_drop, set_intmask, writes_at_append, f7 ICENET_SEND_REQ]
      simp [writes_at]
    · simp [start_xmit_drop, set_intmask, freed_append, f8]
      simp [freed]
    · simp [start_xmit_drop, set_intmask, f1]
    · simp only [start_xmit_drop, set_intmask, ICENET_INTMASK_TX]
      exact or_one_and_one _
  · intro s1 hcase
    have hrun : icenet_start_xmit E fuel s skb = start_xmit_submit E fuel s1 skb := by
      rcases hcase with ⟨h1, rfl⟩ | ⟨h1, hret, h2, rfl⟩
      · rw [start_xmit_unfold, r1 h1]
        simp [Res.bind]
      · rw [start_xmit_unfold, r2 h1 hret]
        have : ¬ xmit_space2 E s < skb.nr_frags + 1 := by omega
        simp [Res.bind, this]
    have hfr : tx_frame s s1 := by
      rcases hcase with ⟨_, rfl⟩ | ⟨_, _, _, rfl⟩
      · exact xmit_s1_frame E s
      · exact xmit_s2_frame E s
    have hstage : ∀ r, xmit_cksum_stage E fuel s1 skb = r →
        writes_at ICENET_SEND_REQ r.state.trace = writes_at ICENET_SEND_REQ s.trace := by
      intro r hr
      obtain ⟨_, _, _, _, _, f7, _, _, _⟩ := hfr
      unfold xmit_cksum_stage at hr
      split_ifs at hr
      · obtain ⟨⟨_, _, _, _, _, c6, _, _, _⟩, _⟩ := checksum_offload_frame E fuel s1 skb
        rw [← hr, c6, f7]
      · rw [← hr]; exact f7 ICENET_SEND_REQ
    have hsub : ∀ r, xmit_cksum_stage E fuel s1 skb = r →
        start_xmit_submit E fuel s1 skb = r.bind fun skb1 s7 =>
          Res.ok NETDEV_TX_OK
            { icenet_post_send E s7 skb1 with
              stats := { (icenet_post_send E s7 skb1).stats with
                         tx_packets := (icenet_post_send E s7 skb1).stats.tx_packets + 1
                         tx_bytes := (icenet_post_send E s7 skb1).stats.tx_bytes + skb1.len } } := by
      intro r hr
      unfold start_xmit_submit
      unfold xmit_cksum_stage at hr
      rw [hr]
    refine ⟨hrun, ?_, ?_, ?_, ?_, ?_⟩
    · intro hne
      unfold xmit_cksum_stage
      rw [if_neg hne]
    · intro hp ha0 ha hw1 hw2
      obtain ⟨st, _, g1, _⟩ := checksum_offload_run E fuel s1 skb ha0 ha hw1 hw2
      exact ⟨st, by unfold xmit_cksum_stage; rw [if_pos hp, g1]⟩
    · intro skb1 s7 hck
      obtain ⟨st, g1, g2⟩ := start_xmit_submit_spec E fuel s s1 skb hfr skb1 s7 hck
      exact ⟨st, by rw [hrun, g1], g2⟩
    · intro st hst
      exact ⟨by rw [hrun, hsub _ hst]; rfl, hstage _ hst⟩
    · intro st hst
      exact ⟨by rw [hrun, hsub _ hst]; rfl, hstage _ hst⟩
  · intro h1 hret
    obtain ⟨st, hst, hfr⟩ := complete_send_frame E (xmit_s1 E s)
    have hbug : icenet_complete_send E (xmit_s1 E s) = Res.bug st := by
      rcases hst with h | h
      · rw [h] at hret; simp [Res.returned] at hret
      · exact h
    refine ⟨st, ?_, ?_⟩
    · rw [start_xmit_unfold]
      unfold start_xmit_reclaim
      rw [if_pos h1, hbug]
      rfl
    · obtain ⟨_, _, _, _, _, f7, _, _, _⟩ := tx_frame_trans (xmit_s1_frame E s) hfr
      exact f7 ICENET_SEND_REQ

/-- C4, witness: a 3-segment buffer on an idle device.  With 2 free request
slots it is dropped (`tx_dropped = 1`, no descriptor written, buffer freed);
with 16 free request slots it is submitted with 3 descriptor writes. -/
theorem icenet_start_xmit_admission_witness :
    (∃ st, icenet_start_xmit (env_const 2 0) 1 nic_idle skb_two_frags
        = Res.ok NETDEV_TX_BUSY st ∧
      writes_at ICENET_SEND_REQ st.trace = [] ∧ freed st.trace = [skb_two_frags] ∧
      st.stats.tx_dropped = 1 ∧ st.queue_stopped = true ∧
      st.intmask &&& ICENET_INTMASK_TX = ICENET_INTMASK_TX) ∧
    (∃ st, icenet_start_xmit (env_const 16 0) 1 nic_idle skb_two_frags
        = Res.ok NETDEV_TX_OK st ∧
      (writes_at ICENET_SEND_REQ st.trace).length = 3 ∧ st.stats.tx_dropped = 0) := by
  constructor
  · obtain ⟨st, h1, h2, _, _, h5, h6, h7, h8⟩ :=
      (icenet_start_xmit_admission (env_const 2 0) 1 nic_idle skb_two_frags).1
        (by decide) (by decide) (by decide)
    exact ⟨st, h1, h2, h5, h6, h7, h8⟩
  · obtain ⟨_, hck, _, hsub, _, _⟩ :=
      (icenet_start_xmit_admission (env_const 16 0) 1 nic_idle skb_two_frags).2.1
        (xmit_s1 (env_const 16 0) nic_idle) (Or.inl ⟨by decide, rfl⟩)
    obtain ⟨st, h1, _, _, _, h5, h6, _, _⟩ := hsub _ _ (hck (by decide))
    exact ⟨st, h1, h5, h6⟩

/-- C4, counterexample to the claim as stated: two calls that are not in the
drop case (`space = 15 >= 3` at the first sample) and yet do not submit the
buffer.  A `CHECKSUM_PARTIAL` buffer whose checksum start lies at physical
address `2^48 + 0x64` ends in the `BUG_ON` of `icenet_checksum_offload`; a
`CHECKSUM_PARTIAL` buffer on a device whose checksum engine never reports
free depth is still spinning when the fuel is spent.  In both no transmit
descriptor is written and nothing is pushed. -/
theorem icenet_start_xmit_not_submitted_counterexample :
    xmit_space1 (env_const 16 0x0103) nic_idle = 15 ∧
    (icenet_start_xmit (env_const 16 0x0103) 1 nic_idle
      { skb_two_frags with ip_summed := CHECKSUM_PARTIAL, head := 2 ^ 48 }).returned = false ∧
    writes_at ICENET_SEND_REQ
      (icenet_start_xmit (env_const 16 0x0103) 1 nic_idle
        { skb_two_frags with ip_summed := CHECKSUM_PARTIAL, head := 2 ^ 48 }).state.trace = [] ∧
    (icenet_start_xmit (env_const 16 0x0103) 1 nic_idle
      { skb_two_frags with ip_summed := CHECKSUM_PARTIAL, head := 2 ^ 48 }).state.send_cq.head
        = 0 ∧
    xmit_space1 (env_const 16 0x0100) nic_idle = 15 ∧
    (icenet_start_xmit (env_const 16 0x0100) 8 nic_idle
      { skb_two_frags with ip_summed := CHECKSUM_PARTIAL }).returned = false ∧
    writes_at ICENET_SEND_REQ
      (icenet_start_xmit (env_const 16 0x0100) 8 nic_idle
        { skb_two_frags with ip_summed := CHECKSUM_PARTIAL }).state.trace = [] ∧
    (icenet_start_xmit (env_const 16 0x0100) 8 nic_idle
      { skb_two_frags with ip_summed := CHECKSUM_PARTIAL }).state.send_cq.head = 0 := by
  decide

end IceNet
